import Mathlib

/-!
Shallow embedding of the storage core in `src/db_handler_mongod.py`
(`DBstore`, a MongoDB-backed store for an ACME server).

The embedding models a MongoDB database as a list of named collections,
each a list of documents; documents are association lists from field
names to BSON-like values.  The pymongo operations used by the source
(`find_one`, `insert_one`, `update_one`, `update_many`, `delete_one`,
`count_documents`, and `aggregate` with the `$lookup` / `$unwind` /
`$match` / `$project` stages) are given as executable functions, and the
`DBstore` methods are translated statement by statement.  Python `dict`
access `d[k]` (which can raise `KeyError`) is modelled with `Except`;
logging statements are omitted.  `$regex` filters with `$options: 'i'`
on plain pattern strings are modelled as case-insensitive substring
matching, which is their behaviour on the metacharacter-free patterns
the store passes.
-/

/-- BSON-like values stored in documents: strings, integers, object ids,
null, embedded documents and arrays. -/
inductive Val where
  | vStr : String → Val
  | vInt : Int → Val
  | vId : Nat → Val
  | vNull : Val
  | vDoc : List (String × Val) → Val
  | vArr : List Val → Val
  deriving Repr

mutual

/-- Structural equality test on values (MongoDB value equality). -/
def Val.beq : Val → Val → Bool
  | .vStr a, .vStr b => a == b
  | .vInt a, .vInt b => a == b
  | .vId a, .vId b => a == b
  | .vNull, .vNull => true
  | .vDoc a, .vDoc b => Val.beqFields a b
  | .vArr a, .vArr b => Val.beqList a b
  | _, _ => false

/-- Equality test on field lists of embedded documents. -/
def Val.beqFields : List (String × Val) → List (String × Val) → Bool
  | [], [] => true
  | (k1, v1) :: t1, (k2, v2) :: t2 => k1 == k2 && Val.beq v1 v2 && Val.beqFields t1 t2
  | _, _ => false

/-- Equality test on element lists of arrays. -/
def Val.beqList : List Val → List Val → Bool
  | [], [] => true
  | v1 :: t1, v2 :: t2 => Val.beq v1 v2 && Val.beqList t1 t2
  | _, _ => false

end

mutual

theorem Val.beq_iff : ∀ a b : Val, Val.beq a b = true ↔ a = b
  | .vStr _, .vStr _ => by simp [Val.beq]
  | .vInt _, .vInt _ => by simp [Val.beq]
  | .vId _, .vId _ => by simp [Val.beq]
  | .vNull, .vNull => by simp [Val.beq]
  | .vDoc a, .vDoc b => by simp [Val.beq, Val.beqFields_iff a b]
  | .vArr a, .vArr b => by simp [Val.beq, Val.beqList_iff a b]
  | .vStr _, .vInt _ => by simp [Val.beq]
  | .vStr _, .vId _ => by simp [Val.beq]
  | .vStr _, .vNull => by simp [Val.beq]
  | .vStr _, .vDoc _ => by simp [Val.beq]
  | .vStr _, .vArr _ => by simp [Val.beq]
  | .vInt _, .vStr _ => by simp [Val.beq]
  | .vInt _, .vId _ => by simp [Val.beq]
  | .vInt _, .vNull => by simp [Val.beq]
  | .vInt _, .vDoc _ => by simp [Val.beq]
  | .vInt _, .vArr _ => by simp [Val.beq]
  | .vId _, .vStr _ => by simp [Val.beq]
  | .vId _, .vInt _ => by simp [Val.beq]
  | .vId _, .vNull => by simp [Val.beq]
  | .vId _, .vDoc _ => by simp [Val.beq]
  | .vId _, .vArr _ => by simp [Val.beq]
  | .vNull, .vStr _ => by simp [Val.beq]
  | .vNull, .vInt _ => by simp [Val.beq]
  | .vNull, .vId _ => by simp [Val.beq]
  | .vNull, .vDoc _ => by simp [Val.beq]
  | .vNull, .vArr _ => by simp [Val.beq]
  | .vDoc _, .vStr _ => by simp [Val.beq]
  | .vDoc _, .vInt _ => by simp [Val.beq]
  | .vDoc _, .vId _ => by simp [Val.beq]
  | .vDoc _, .vNull => by simp [Val.beq]
  | .vDoc _, .vArr _ => by simp [Val.beq]
  | .vArr _, .vStr _ => by simp [Val.beq]
  | .vArr _, .vInt _ => by simp [Val.beq]
  | .vArr _, .vId _ => by simp [Val.beq]
  | .vArr _, .vNull => by simp [Val.beq]
  | .vArr _, .vDoc _ => by simp [Val.beq]

theorem Val.beqFields_iff : ∀ a b : List (String × Val), Val.beqFields a b = true ↔ a = b
  | [], [] => by simp [Val.beqFields]
  | [], _ :: _ => by simp [Val.beqFields]
  | _ :: _, [] => by simp [Val.beqFields]
  | (_, v1) :: t1, (_, v2) :: t2 => by
      simp [Val.beqFields, Val.beq_iff v1 v2, Val.beqFields_iff t1 t2, and_assoc]

theorem Val.beqList_iff : ∀ a b : List Val, Val.beqList a b = true ↔ a = b
  | [], [] => by simp [Val.beqList]
  | [], _ :: _ => by simp [Val.beqList]
  | _ :: _, [] => by simp [Val.beqList]
  | v1 :: t1, v2 :: t2 => by
      simp [Val.beqList, Val.beq_iff v1 v2, Val.beqList_iff t1 t2]

end

instance : DecidableEq Val := fun a b =>
  decidable_of_iff (Val.beq a b = true) (Val.beq_iff a b)

/-- A MongoDB document: an association list of fields (Python `dict`). -/
abbrev Doc := List (String × Val)

/-- Field access on a document (Python `d.get(k)` / document field read). -/
def getField : Doc → String → Option Val
  | [], _ => none
  | (k1, v) :: t, k => if k1 = k then some v else getField t k

/-- Replace the value of a field, or append the field if absent. -/
def setField : Doc → String → Val → Doc
  | [], k, v => [(k, v)]
  | (k1, v1) :: t, k, v => if k1 = k then (k, v) :: t else (k1, v1) :: setField t k v

/-- Remove a field from a document if present. -/
def removeField : Doc → String → Doc
  | [], _ => []
  | (k1, v1) :: t, k => if k1 = k then t else (k1, v1) :: removeField t k

/-- Key-membership test (Python `k in d`). -/
def hasKey (d : Doc) (k : String) : Bool := (getField d k).isSome

/-- The list of keys of a document, in order (Python `d.keys()`). -/
def docKeys (d : Doc) : List String := d.map (fun kv => kv.1)

/-- Python `d.setdefault(k, v)`: insert `k ↦ v` only when `k` is absent. -/
def setdefault (d : Doc) (k : String) (v : Val) : Doc :=
  if hasKey d k then d else d ++ [(k, v)]

/-- Python dictionary errors that the translated methods can raise. -/
inductive PyErr where
  | keyError : String → PyErr
  | attributeError : String → PyErr
  deriving DecidableEq, Repr

/-- Python `d[k]`: the value at `k`, or a `KeyError`. -/
def pyIndex (d : Doc) (k : String) : Except PyErr Val :=
  match getField d k with
  | some v => .ok v
  | none => .error (.keyError k)

/-- Split a dotted MongoDB field path into its segments (auxiliary). -/
def splitDotsAux : List Char → List Char → List String
  | [], acc => [String.mk acc.reverse]
  | c :: rest, acc =>
      if c = '.' then String.mk acc.reverse :: splitDotsAux rest []
      else splitDotsAux rest (c :: acc)

/-- Split a dotted MongoDB field path such as `order.account.name`. -/
def splitDots (s : String) : List String := splitDotsAux s.toList []

/-- Rewrite the `__` separators of the source's flattened column names to
dots, as `field.replace('__', '.')` does in the source. -/
def undToDots : List Char → List Char
  | '_' :: '_' :: rest => '.' :: undToDots rest
  | c :: rest => c :: undToDots rest
  | [] => []

/-- The `field.replace('__', '.')` on strings. -/
def underToDots (s : String) : String := String.mk (undToDots s.toList)

/-- Read the value at a sequence of path segments, descending into
embedded documents. -/
def getSegs : List String → Doc → Option Val
  | [], _ => none
  | [k], d => getField d k
  | k :: rest, d =>
      match getField d k with
      | some (.vDoc sub) => getSegs rest sub
      | _ => none

/-- Read the value at a dotted MongoDB field path. -/
def getPath (d : Doc) (p : String) : Option Val := getSegs (splitDots p) d

/-- Write a value at a sequence of path segments, creating embedded
documents along the path as MongoDB does for `$lookup` target paths. -/
def setSegs : List String → Val → Doc → Doc
  | [], _, d => d
  | [k], v, d => setField d k v
  | k :: rest, v, d =>
      match getField d k with
      | some (.vDoc sub) => setField d k (.vDoc (setSegs rest v sub))
      | _ => setField d k (.vDoc (setSegs rest v []))

/-- Write a value at a dotted MongoDB field path. -/
def setPath (d : Doc) (p : String) (v : Val) : Doc := setSegs (splitDots p) v d

/-- Remove the field at a sequence of path segments. -/
def removeSegs : List String → Doc → Doc
  | [], d => d
  | [k], d => removeField d k
  | k :: rest, d =>
      match getField d k with
      | some (.vDoc sub) => setField d k (.vDoc (removeSegs rest sub))
      | _ => d

/-- Remove the field at a dotted MongoDB field path. -/
def removePath (d : Doc) (p : String) : Doc := removeSegs (splitDots p) d

/-- Case-insensitive list prefix test on characters. -/
def charsPrefix : List Char → List Char → Bool
  | [], _ => true
  | _ :: _, [] => false
  | a :: as, b :: bs => a == b && charsPrefix as bs

/-- Substring test on character lists. -/
def charsInfix : List Char → List Char → Bool
  | p, [] => p.isEmpty
  | p, c :: rest => charsPrefix p (c :: rest) || charsInfix p rest

/-- Case-insensitive substring containment: the behaviour of the
`{'$regex': pattern, '$options': 'i'}` filters of the source on the
metacharacter-free patterns it passes (an unanchored regex matches
anywhere in the string). -/
def strContainsCI (pat s : String) : Bool :=
  charsInfix (pat.toList.map Char.toLower) (s.toList.map Char.toLower)

/-- A single filter condition: exact equality `{k: v}` or the regex form
`{k: {'$regex': pattern, '$options': 'i'}}`.  A regex only matches
string-valued fields, and only when the pattern itself is a string. -/
inductive Cond where
  | ceq : Val → Cond
  | regex : Val → Cond
  deriving DecidableEq, Repr

/-- A MongoDB filter document: a conjunction of per-path conditions. -/
abbrev MFilter := List (String × Cond)

/-- Match one condition against the (possibly absent) value at a path. -/
def condMatch : Cond → Option Val → Bool
  | .ceq w, some v => Val.beq v w
  | .ceq _, none => false
  | .regex (.vStr p), some (.vStr s) => strContainsCI p s
  | .regex _, _ => false

/-- Match a filter against a document (the empty filter `{}` matches
every document). -/
def docMatch (f : MFilter) (d : Doc) : Bool :=
  f.all fun kc => condMatch kc.2 (getPath d kc.1)

/-- The whole database: named collections of documents plus a counter
supplying fresh object ids. -/
structure Db where
  colls : List (String × List Doc)
  nextId : Nat
  deriving Repr, DecidableEq


/-- The empty database. -/
def Db.empty : Db := ⟨[], 1⟩

/-- The documents of a collection (a collection never accessed is empty,
as MongoDB creates collections on first use). -/
def getColl (db : Db) (c : String) : List Doc :=
  match db.colls.find? (fun e => e.1 = c) with
  | some e => e.2
  | none => []

/-- Replace a collection's documents (creating the collection if new). -/
def setCollAux : List (String × List Doc) → String → List Doc → List (String × List Doc)
  | [], c, docs => [(c, docs)]
  | (c1, d1) :: t, c, docs =>
      if c1 = c then (c, docs) :: t else (c1, d1) :: setCollAux t c docs

/-- Replace a collection inside the database state. -/
def setColl (db : Db) (c : String) (docs : List Doc) : Db :=
  ⟨setCollAux db.colls c docs, db.nextId⟩

/-- The `find_one(filter)`: the first document of the collection matching
the filter. -/
def findDoc (docs : List Doc) (f : MFilter) : Option Doc := docs.find? (docMatch f)

/-- The `count_documents(filter)`. -/
def countDocs (docs : List Doc) (f : MFilter) : Nat := (docs.filter (docMatch f)).length

/-- An update document: `$set` and `$setOnInsert` operators (the only
ones the source uses). -/
structure UpdateSpec where
  uset : List (String × Val) := []
  setOnInsert : List (String × Val) := []
  deriving Repr

/-- Apply a `$set` field list to a document. -/
def applySet (pairs : List (String × Val)) (d : Doc) : Doc :=
  pairs.foldl (fun d kv => setField d kv.1 kv.2) d

/-- The equality fields of a filter, used by MongoDB upserts to seed the
inserted document. -/
def eqFields (f : MFilter) : Doc :=
  f.filterMap fun kc =>
    match kc.2 with
    | .ceq v => some (kc.1, v)
    | .regex _ => none

/-- The document inserted by an upsert that matched nothing: the
filter's equality fields with `$set` and `$setOnInsert` applied, plus a
fresh `_id`. -/
def upsertDoc (f : MFilter) (u : UpdateSpec) (idv : Nat) : Doc :=
  let base := applySet u.setOnInsert (applySet u.uset (eqFields f))
  if hasKey base "_id" then base else base ++ [("_id", .vId idv)]

/-- Apply `$set` to the first matching document, if any. -/
def updateFirst (f : MFilter) (u : UpdateSpec) : List Doc → Option (List Doc)
  | [] => none
  | d :: t =>
      if docMatch f d then some (applySet u.uset d :: t)
      else (updateFirst f u t).map (d :: ·)

/-- The `update_one(filter, update, upsert)`. -/
def update_one (db : Db) (c : String) (f : MFilter) (u : UpdateSpec) (upsert : Bool) : Db :=
  match updateFirst f u (getColl db c) with
  | some docs => setColl db c docs
  | none =>
      if upsert then
        setColl ⟨db.colls, db.nextId + 1⟩ c (getColl db c ++ [upsertDoc f u db.nextId])
      else db

/-- The `update_many(filter, update, upsert)`: apply `$set` to every
matching document, or upsert one document when nothing matches. -/
def update_many (db : Db) (c : String) (f : MFilter) (u : UpdateSpec) (upsert : Bool) : Db :=
  if (getColl db c).any (docMatch f) then
    setColl db c ((getColl db c).map fun d => if docMatch f d then applySet u.uset d else d)
  else if upsert then
    setColl ⟨db.colls, db.nextId + 1⟩ c (getColl db c ++ [upsertDoc f u db.nextId])
  else db

/-- The `insert_one(doc)`: append the document (with a fresh `_id` when the
caller supplied none) and return the inserted id. -/
def insert_one (db : Db) (c : String) (d : Doc) : Val × Db :=
  let d1 := if hasKey d "_id" then d else d ++ [("_id", .vId db.nextId)]
  ((getField d1 "_id").getD (.vId db.nextId),
   setColl ⟨db.colls, db.nextId + 1⟩ c (getColl db c ++ [d1]))

/-- Remove the first matching document, if any. -/
def deleteFirst (f : MFilter) : List Doc → Option (List Doc)
  | [] => none
  | d :: t =>
      if docMatch f d then some t
      else (deleteFirst f t).map (d :: ·)

/-- The `delete_one(filter)`: remove the first match; the `Bool` is
`deleted_count > 0`. -/
def delete_one (db : Db) (c : String) (f : MFilter) : Bool × Db :=
  match deleteFirst f (getColl db c) with
  | some docs => (true, setColl db c docs)
  | none => (false, db)

/-- A `$lookup` stage: join each document with the foreign collection's
documents whose `foreignField` equals the document's `localField`
(a missing field compares as null on either side, as in MongoDB), the
matches stored as an array at the `as` path. -/
def lookupStage (db : Db) (fromColl localField foreignField asPath : String)
    (docs : List Doc) : List Doc :=
  docs.map fun d =>
    let lv := (getPath d localField).getD .vNull
    let ms := (getColl db fromColl).filter
      (fun fd => Val.beq ((getPath fd foreignField).getD .vNull) lv)
    setPath d asPath (.vArr (ms.map .vDoc))

/-- A `$unwind` stage on a path: one output document per array element;
a missing/null value or empty array drops the document unless
`preserveNullAndEmptyArrays` is set, in which case the document is kept
(with the field removed in the empty-array case); a non-array value
passes through unchanged. -/
def unwindStage (path : String) (preserve : Bool) (docs : List Doc) : List Doc :=
  docs.flatMap fun d =>
    match getPath d path with
    | some (.vArr []) => if preserve then [removePath d path] else []
    | some (.vArr l) => l.map (setPath d path)
    | some .vNull => if preserve then [d] else []
    | none => if preserve then [d] else []
    | some _ => [d]

/-- A `$match` stage. -/
def matchStage (f : MFilter) (docs : List Doc) : List Doc := docs.filter (docMatch f)

/-- One field of a `$project` stage: plain inclusion (`'f': 1`), a field
path expression (`'f': '$p'`), or an `$ifNull` expression. -/
inductive ProjSpec where
  | incl : ProjSpec
  | path : String → ProjSpec
  | ifNullPath : String → Val → ProjSpec
  deriving Repr

/-- Evaluate one projected field against a document.  An inclusion or a
path expression whose path is absent yields no output field (MongoDB
omits the key); `$ifNull` substitutes the default for a missing or null
value. -/
def projField (d : Doc) : ProjSpec → Option Val
  | .incl => none
  | .path p => getPath d p
  | .ifNullPath p dflt =>
      match getPath d p with
      | some .vNull => some dflt
      | some v => some v
      | none => some dflt

/-- Evaluate one projected field, resolving plain inclusion against the
given key. -/
def projFieldAt (d : Doc) (k : String) : ProjSpec → Option Val
  | .incl => getPath d k
  | s => projField d s

/-- A `$project` stage (also used for `find_one` projections): `_id` is
included by default when present unless `inclId` is false (the
`'_id': 0` form); each listed field is emitted when its value exists.
Output fields follow the projection specification's order. -/
def projectDoc (spec : List (String × ProjSpec)) (inclId : Bool) (d : Doc) : Doc :=
  (if inclId then
    match getField d "_id" with
    | some v => [("_id", v)]
    | none => []
   else []) ++
  spec.filterMap fun ks => (projFieldAt d ks.1 ks.2).map (fun v => (ks.1, v))

/-- A `$project` stage applied to a pipeline. -/
def projectStage (spec : List (String × ProjSpec)) (inclId : Bool) (docs : List Doc) :
    List Doc :=
  docs.map (projectDoc spec inclId)

/-- The `find_one(filter, {f: 1 for f in vlist})`: first match reduced to an
inclusion projection (with `_id`, which the source never suppresses). -/
def findDocProj (docs : List Doc) (f : MFilter) (vlist : List String) : Option Doc :=
  (findDoc docs f).map (projectDoc (vlist.map (fun k => (k, ProjSpec.incl))) true)

/-- Modelled from the spec: the running code's version string
`__dbversion__` is imported from `acme_srv.version`, which is not among
the source files; the spec only requires it to be the fixed version of
the running code, so it is modelled as an arbitrary fixed string. -/
def dbversion : String := "0.1"

/-- Modelled from the spec: `datestr_to_date` from `acme_srv.helper`
(not among the source files) re-encodes a timestamp string as a date
value; no claim observes the re-encoded value, so the re-encoding is
modelled as the identity. -/
def datestr_to_date (v : Val) : Val := v

/-- The `dict_from_row(row) = dict(zip(row.keys(), row))`: iterating a
Python dict yields its keys, so on the plain dictionaries returned by
MongoDB this maps every key to the key itself (the helper was written
for sqlite3 rows, which iterate to their values). -/
def dict_from_row (d : Doc) : Doc := d.map (fun kv => (kv.1, Val.vStr kv.1))

/-- The `DBstore._order_search`: `find_one` on the `orders` collection with
a case-insensitive regex on one column. -/
def _order_search (db : Db) (column : String) (pat : Val) : Option Doc :=
  findDoc (getColl db "orders") [(column, .regex pat)]

/-- The `DBstore._status_search`: `find_one` on the `status` collection;
returns the pair `(result, exists)`. -/
def _status_search (db : Db) (column : String) (pat : Val) : Option Doc × Bool :=
  let result := findDoc (getColl db "status") [(column, .regex pat)]
  (result, result.isSome)

/-- The `DBstore._authorization_search`: aggregation joining each
authorization with its order (`order` → `orders._id`), status
(`status` → `status._id`) and the order's account
(`order_data.account` → `account._id`), matching `column` against the
pattern (the source pads it to `.*pattern.*`, which is the same
substring semantics), then projecting the flattened composite row with
`_id` excluded. -/
def _authorization_search (db : Db) (column : String) (pat : Val) : List Doc :=
  let docs := getColl db "authorization"
  let docs := lookupStage db "orders" "order" "_id" "order_data" docs
  let docs := unwindStage "order_data" true docs
  let docs := lookupStage db "status" "status" "_id" "status_data" docs
  let docs := unwindStage "status_data" true docs
  let docs := lookupStage db "account" "order_data.account" "_id" "account_data" docs
  let docs := unwindStage "account_data" true docs
  let docs := matchStage [(column, .regex pat)] docs
  projectStage
    [("type", .incl), ("value", .incl),
     ("name", .ifNullPath "authorization.name" (.vStr "")),
     ("order__id", .path "order_data._id"),
     ("order__name", .path "order_data.name"),
     ("status_id", .path "status_data._id"),
     ("status__name", .path "status_data.name"),
     ("order__account__name", .path "account_data.name")] false docs

/-- The `DBstore._certificate_search`: `find_one` on the `Certificate`
collection; the source's `if column != 'order__name'` branch and its
`else` branch build the identical literal filter, so the composite
column is matched against a leaf field named `order__name`. -/
def _certificate_search (db : Db) (column : String) (pat : Val) : Option Doc :=
  if column ≠ "order__name" then
    findDoc (getColl db "Certificate") [(column, .regex pat)]
  else
    findDoc (getColl db "Certificate") [("order__name", .regex pat)]

/-- The `DBstore._certificate_insert`: resolve the order name in
`data_dic['order']` to its `_id` (any failure — missing key, order not
found, order without `_id` — is caught and leaves `order = None`),
default `csr`, `header_info` and `error` to empty strings, and insert
into the `Certificate` collection. -/
def _certificate_insert (db : Db) (d : Doc) : Option Val × Db :=
  let orderVal : Val :=
    match getField d "order" with
    | some ov =>
        match _order_search db "name" ov with
        | some odoc => (getField odoc "_id").getD .vNull
        | none => .vNull
    | none => .vNull
  let d := setField d "order" orderVal
  let d := setdefault d "csr" (.vStr "")
  let d := setdefault d "header_info" (.vStr "")
  let d := setdefault d "error" (.vStr "")
  let (rid, db) := insert_one db "Certificate" d
  (some rid, db)

/-- The `DBstore._certificate_update`: update the existing certificate
addressed by `{'name': exists['name']}`.  With `error` present only
`error` and `poll_identifier` are set; otherwise exactly the fixed
field list `cert, cert_raw, issue_uts, expire_uts, renewal_info,
poll_identifier, replaced, header_info, serial, aki` is set, each field
falling back to the existing record's value (`data_dic.get(f,
exists.get(f))`).  Returns `exists['_id']`. -/
def _certificate_update (db : Db) (d ex : Doc) : Except PyErr (Option Val × Db) := do
  let _ ← pyIndex d "name"
  let exId ← pyIndex ex "_id"
  let exName ← pyIndex ex "name"
  let dflt := fun f => (getField d f).getD ((getField ex f).getD .vNull)
  let upd : UpdateSpec :=
    if hasKey d "error" then
      { uset := [("error", (getField d "error").getD .vNull),
                 ("poll_identifier", dflt "poll_identifier")] }
    else
      { uset := [("cert", dflt "cert"), ("cert_raw", dflt "cert_raw"),
                 ("issue_uts", dflt "issue_uts"), ("expire_uts", dflt "expire_uts"),
                 ("renewal_info", dflt "renewal_info"),
                 ("poll_identifier", dflt "poll_identifier"),
                 ("replaced", dflt "replaced"), ("header_info", dflt "header_info"),
                 ("serial", dflt "serial"), ("aki", dflt "aki")] }
  let db := update_one db "Certificate" [("name", .ceq exName)] upd false
  return (some exId, db)

/-- The `DBstore._challenge_search`: aggregation on the `challenge`
collection matching `column` first, then joining status (kept as an
array field, never unwound), authorization, the authorization's order
and the order's account (each unwound without
`preserveNullAndEmptyArrays`); returns the first result or `None`. -/
def _challenge_search (db : Db) (column : String) (pat : Val) : Option Doc :=
  let docs := getColl db "challenge"
  let docs := matchStage [(column, .regex pat)] docs
  let docs := lookupStage db "status" "status_id" "_id" "status" docs
  let docs := lookupStage db "authorization" "authorization_id" "_id" "authorization" docs
  let docs := unwindStage "authorization" false docs
  let docs := lookupStage db "orders" "authorization.order_id" "_id" "authorization.order" docs
  let docs := unwindStage "authorization.order" false docs
  let docs := lookupStage db "account" "authorization.order.account_id" "_id"
    "authorization.order.account" docs
  let docs := unwindStage "authorization.order.account" false docs
  docs.head?

/-- The eight status names the seeding body of `DBstore._db_create` lists. -/
def statusNameList : List String :=
  ["invalid", "pending", "ready", "processing", "valid", "expired", "deactivated", "revoked"]

/-- One status upsert of the seeding body of `_db_create` and of
`_db_update_status`:
`update_one({'name': n}, {'$setOnInsert': {'name': n}}, upsert=True)`. -/
def statusUpsert (db : Db) (n : String) : Db :=
  update_one db "status" [("name", .ceq (.vStr n))]
    { setOnInsert := [("name", .vStr n)] } true

/-- The `DBstore._db_create`: its first statement,
`self.logger.debug('DBStore._db_create(%s)', self.db_name)`, reads
`self.db_name` — an attribute that `__init__` never assigns (it only
uses its local `db_name` parameter, and nothing else in the class sets
it) — so every call raises `AttributeError` before any upsert runs.
The method returns with the exception and the store unchanged. -/
def _db_create (db : Db) : Db × Option PyErr :=
  (db, some (.attributeError "db_name"))

/-- The statements of `DBstore._db_create` below the crashing logger
call (lines 365-380): upsert the eight status names, then upsert the
`dbversion` housekeeping record (both with `$setOnInsert`, so existing
records are never modified).  Unreachable in the program — `_db_create`
raises before this code runs — modelled separately to exhibit the
intended seeding behaviour. -/
def _db_create_body (db : Db) : Db :=
  let db := statusNameList.foldl statusUpsert db
  update_one db "housekeeping" [("name", .ceq (.vStr "dbversion"))]
    { setOnInsert := [("name", .vStr "dbversion"), ("value", .vStr dbversion)] } true

/-- The `DBstore._db_update_account`: `update_many({}, {'$set': {'eab_kid':
''}}, upsert=True)` on the `account` collection. -/
def _db_update_account (db : Db) : Db :=
  update_many db "account" [] { uset := [("eab_kid", .vStr "")] } true

/-- The `DBstore._db_update_status`: upsert the three newer status names. -/
def _db_update_status (db : Db) : Db :=
  ["deactivated", "expired", "revoked"].foldl statusUpsert db

/-- The `DBstore._db_update_authorization`: the source only logs. -/
def _db_update_authorization (db : Db) : Db := db

/-- The `DBstore._db_update_cahandler`: the source only logs. -/
def _db_update_cahandler (db : Db) : Db := db

/-- The `DBstore._db_update_certificate`: the source only logs. -/
def _db_update_certificate (db : Db) : Db := db

/-- The `DBstore._db_update_challenge`: the source only logs. -/
def _db_update_challenge (db : Db) : Db := db

/-- The `DBstore._db_update_cliaccount`: the source only logs. -/
def _db_update_cliaccount (db : Db) : Db := db

/-- The `DBstore._db_update_housekeeping`: the source only logs. -/
def _db_update_housekeeping (db : Db) : Db := db

/-- The `DBstore._db_update_orders`: the source only logs. -/
def _db_update_orders (db : Db) : Db := db

/-- The `DBstore.account_add`: upsert keyed on the `jwk` value.  When a
record with the same `jwk` exists, exactly `alg` and `contact` are set
from the supplied record (whose `alg`/`contact` are read with `[]`, a
`KeyError` when absent); otherwise the record is inserted as given
(with `eab_kid` defaulted to the empty string). -/
def account_add (db : Db) (d : Doc) : Except PyErr (Val × Bool × Db) := do
  let d := if hasKey d "eab_kid" then d else setField d "eab_kid" (.vStr "")
  let jwk ← pyIndex d "jwk"
  match findDoc (getColl db "account") [("jwk", .ceq jwk)] with
  | some existing => do
      let aname ← pyIndex existing "name"
      let _ ← pyIndex existing "_id"
      let alg ← pyIndex d "alg"
      let contact ← pyIndex d "contact"
      let db := update_one db "account" [("jwk", .ceq jwk)]
        { uset := [("alg", alg), ("contact", contact)] } false
      return (aname, false, db)
  | none => do
      let (_, db) := insert_one db "account" d
      let aname ← pyIndex d "name"
      return (aname, true, db)

/-- The `DBstore.account_lookup`: `find_one` with a regex filter, the empty
dictionary when nothing matches, and `created_at` re-encoded when
present. -/
def account_lookup (db : Db) (column : String) (pat : Val) : Doc :=
  let result := (findDoc (getColl db "account") [(column, .regex pat)]).getD []
  if hasKey result "created_at" then
    setField result "created_at" (datestr_to_date ((getField result "created_at").getD .vNull))
  else result

/-- The projection field list of `DBstore.accountlist_get`. -/
def accountVlist : List String :=
  ["id", "name", "eab_kid", "contact", "created_at", "jwk", "alg",
   "order__id", "order__name", "order__status__id", "order__status__name",
   "order__notbefore", "order__notafter", "order__expires",
   "order__identifiers", "order__authorization__id", "order__authorization__name",
   "order__authorization__type", "order__authorization__value", "order__authorization__expires",
   "order__authorization__token", "order__authorization__created_at",
   "order__authorization__status__id", "order__authorization__status__name",
   "order__authorization__challenge__id", "order__authorization__challenge__name",
   "order__authorization__challenge__token", "order__authorization__challenge__expires",
   "order__authorization__challenge__type", "order__authorization__challenge__keyauthorization",
   "order__authorization__challenge__created_at", "order__authorization__challenge__status__id",
   "order__authorization__challenge__status__name"]

/-- The `DBstore.accountlist_get`: aggregation joining every account with
its orders, authorizations, challenges and their statuses, then
projecting `{field: 1 for field in vlist}` (a plain inclusion
projection, `_id` included by default); returns `(vlist, rows)`. -/
def accountlist_get (db : Db) : List String × List Doc :=
  let docs := getColl db "account"
  let docs := lookupStage db "orders" "_id" "account_id" "orders" docs
  let docs := unwindStage "orders" false docs
  let docs := lookupStage db "authorization" "orders._id" "order_id" "orders.authorization" docs
  let docs := unwindStage "orders.authorization" false docs
  let docs := lookupStage db "challenge" "orders.authorization._id" "authorization_id"
    "orders.authorization.challenge" docs
  let docs := unwindStage "orders.authorization.challenge" false docs
  let docs := lookupStage db "status" "orders.status_id" "_id" "orders.status" docs
  let docs := unwindStage "orders.status" false docs
  let docs := lookupStage db "status" "orders.authorization.status_id" "_id"
    "orders.authorization.status" docs
  let docs := unwindStage "orders.authorization.status" false docs
  let docs := lookupStage db "status" "orders.authorization.challenge.status_id" "_id"
    "orders.authorization.challenge.status" docs
  let docs := unwindStage "orders.authorization.challenge.status" false docs
  (accountVlist, projectStage (accountVlist.map (fun f => (f, .incl))) true docs)

/-- The `DBstore.authorization_add`: insert the record into the
`authorization` collection as given — no check that the referenced
order exists — and return the new id. -/
def authorization_add (db : Db) (d : Doc) : Option Val × Db :=
  let (rid, db) := insert_one db "authorization" d
  (some rid, db)

/-- The `DBstore.authorization_lookup`: runs the internal search; the loop
that would reduce each row to the `vlist` projection is commented out
in the source, so the search result is returned unchanged and `vlist`
is never read. -/
def authorization_lookup (db : Db) (column : String) (pat : Val)
    (vlist : List String := ["type", "value"]) : List Doc :=
  _authorization_search db column pat

/-- The `DBstore.certificate_add`: upsert keyed on `name` via a regex
search; when the certificate exists, five fields are pre-defaulted from
the existing record and `_certificate_update` is called, otherwise
`_certificate_insert`. -/
def certificate_add (db : Db) (d : Doc) : Except PyErr (Option Val × Db) := do
  let nameV ← pyIndex d "name"
  match _certificate_search db "name" nameV with
  | some ex =>
      let d := setdefault d "poll_identifier" ((getField ex "poll_identifier").getD .vNull)
      let d := setdefault d "renewal_info" ((getField ex "renewal_info").getD .vNull)
      let d := setdefault d "header_info" ((getField ex "header_info").getD .vNull)
      let d := setdefault d "aki" ((getField ex "aki").getD .vNull)
      let d := setdefault d "serial" ((getField ex "serial").getD .vNull)
      _certificate_update db d ex
  | none => return _certificate_insert db d

/-- The projection field list of `DBstore.certificatelist_get`. -/
def certificateVlist : List String :=
  ["id", "name", "cert_raw", "csr", "poll_identifier", "created_at", "issue_uts", "expire_uts",
   "order__id", "order__name", "order__status__name", "order__notbefore", "order__notafter",
   "order__expires", "order__identifiers", "order__account__name", "order__account__contact",
   "order__account__created_at", "order__account__jwk", "order__account__alg",
   "order__account__eab_kid"]

/-- The `DBstore.certificatelist_get`: aggregation on the `certificate`
collection joining the order (`order_id` → `orders._id`) and its
account, then projecting `{field: '$' + field.replace('__', '.')}`
(computed paths, `_id` included by default); returns `(vlist, rows)`. -/
def certificatelist_get (db : Db) : List String × List Doc :=
  let docs := getColl db "certificate"
  let docs := lookupStage db "orders" "order_id" "_id" "order" docs
  let docs := unwindStage "order" false docs
  let docs := lookupStage db "account" "order.account_id" "_id" "order.account" docs
  let docs := unwindStage "order.account" false docs
  (certificateVlist,
   projectStage (certificateVlist.map (fun f => (f, .path (underToDots f)))) true docs)

/-- The `DBstore.certificates_search`: the same join pipeline as
`certificatelist_get` but with `{'$match': {column: regex}}` placed
after the joins and before the projection — the match key is the
caller's column name taken literally, not translated through
`replace('__', '.')` as the projection keys are. -/
def certificates_search (db : Db) (column : String) (pat : Val)
    (vlist : List String := ["name", "csr", "cert", "order__name"]) : List Doc :=
  let docs := getColl db "certificate"
  let docs := lookupStage db "orders" "order_id" "_id" "order" docs
  let docs := unwindStage "order" false docs
  let docs := lookupStage db "account" "order.account_id" "_id" "order.account" docs
  let docs := unwindStage "order.account" false docs
  let docs := matchStage [(column, .regex pat)] docs
  projectStage (vlist.map (fun f => (f, .path (underToDots f)))) true docs

/-- The `DBstore.challenge_update`: look the challenge up by name; when a
`status` name is supplied, `_status_search` returns the `(result,
exists)` tuple and `dict_from_row(status)['id']` calls `.keys()` on a
tuple, raising an `AttributeError` before anything is written; without
a supplied status, `lookup['status__id']` raises `KeyError` (the
aggregation result has `status_id`/`status`, never `status__id`).  The
pair returned is the database state (unchanged whenever an error is
reported) and the exception, if any. -/
def challenge_update (db : Db) (d : Doc) : Db × Option PyErr :=
  match pyIndex d "name" with
  | .error e => (db, some e)
  | .ok nameV =>
    match _challenge_search db "name" nameV with
    | none => (db, none)
    | some lk0 =>
      let lk := dict_from_row lk0
      if hasKey d "status" then
        (db, some (.attributeError "keys"))
      else
        match pyIndex lk "status__id" with
        | .error e => (db, some e)
        | .ok sid =>
          match pyIndex lk "keyauthorization" with
          | .error e => (db, some e)
          | .ok kadflt =>
            let d := setdefault d "keyauthorization" kadflt
            match pyIndex lk "validated" with
            | .error e => (db, some e)
            | .ok vdflt =>
              let d := setdefault d "validated" vdflt
              (update_one db "challenge" [("name", .ceq nameV)]
                { uset := [("status_id", sid),
                           ("keyauthorization", (getField d "keyauthorization").getD .vNull),
                           ("validated", (getField d "validated").getD .vNull)] } false,
               none)

/-- The `DBstore.db_update`: run every per-collection reconciliation step,
then rewrite the persisted `dbversion` housekeeping record to the
running code's version (a `$set` upsert, executed after all the
steps). -/
def db_update (db : Db) : Db :=
  let db := _db_update_certificate db
  let db := _db_update_status db
  let db := _db_update_challenge db
  let db := _db_update_account db
  let db := _db_update_orders db
  let db := _db_update_authorization db
  let db := _db_update_housekeeping db
  let db := _db_update_cahandler db
  let db := _db_update_cliaccount db
  update_one db "housekeeping" [("name", .ceq (.vStr "dbversion"))]
    { uset := [("value", .vStr dbversion)] } true

/-- The `DBstore.dbversion_get`: read the `dbversion` housekeeping record
(projection `{'value': 1}`) and return `(value, 'tools/db_update.py')`;
a missing record or missing `value` field yields `None`. -/
def dbversion_get (db : Db) : Option Val × String :=
  let dbv :=
    match findDocProj (getColl db "housekeeping") [("name", .ceq (.vStr "dbversion"))]
        ["value"] with
    | some r => getField r "value"
    | none => none
  (dbv, "tools/db_update.py")

/-- The `DBstore.nonce_add`: insert `{'nonce': nonce}` and return the new
id. -/
def nonce_add (db : Db) (nonce : String) : Option Val × Db :=
  let (rid, db) := insert_one db "nonce" [("nonce", .vStr nonce)]
  (some rid, db)

/-- The `DBstore.nonce_check`: `count_documents({'nonce': nonce}) > 0`. -/
def nonce_check (db : Db) (nonce : String) : Bool :=
  countDocs (getColl db "nonce") [("nonce", .ceq (.vStr nonce))] > 0

/-- The `DBstore.nonce_delete`: `delete_one({'nonce': nonce})`. -/
def nonce_delete (db : Db) (nonce : String) : Db :=
  (delete_one db "nonce" [("nonce", .ceq (.vStr nonce))]).2

/-- The `DBstore.order_add`: default `notbefore`/`notafter` to 0, resolve
the account by name through `account_lookup`, and insert the order with
the account's `_id`; a missing account yields `None` with nothing
written. -/
def order_add (db : Db) (d : Doc) : Except PyErr (Option Val × Db) := do
  let d := setdefault d "notbefore" (.vInt 0)
  let d := setdefault d "notafter" (.vInt 0)
  let acctName ← pyIndex d "account"
  let account := account_lookup db "name" acctName
  if account ≠ [] then do
    let aid ← pyIndex account "_id"
    let d := setField d "account" aid
    let (rid, db) := insert_one db "orders" d
    return (some rid, db)
  else
    return (none, db)

/-- The default projection list of `DBstore.order_lookup`. -/
def orderVlistDefault : List String :=
  ["notbefore", "notafter", "identifiers", "expires", "status__name"]

/-- The Python comprehension `{field: lookup[field] for field in
vlist}`: every listed field is read with `[]`, so a missing field
raises `KeyError`. -/
def pyPick (d : Doc) : List String → Except PyErr Doc
  | [] => .ok []
  | f :: rest => do
      let v ← pyIndex d f
      let r ← pyPick d rest
      return (f, v) :: r

/-- The `DBstore.order_lookup`: `find_one` with an inclusion projection of
`vlist`; on a hit, `notbefore`/`notafter` are backfilled with 0 when
absent, the result is rebuilt over `vlist` (a `KeyError` when any other
listed field is absent from the document), and a `status` alias for
`status__name` is added; no hit yields the empty dictionary. -/
def order_lookup (db : Db) (column : String) (pat : Val)
    (vlist : List String := orderVlistDefault) : Except PyErr Doc := do
  match findDocProj (getColl db "orders") [(column, .regex pat)] vlist with
  | some lk =>
      let lk := setField lk "notbefore" ((getField lk "notbefore").getD (.vInt 0))
      let lk := setField lk "notafter" ((getField lk "notafter").getD (.vInt 0))
      let result ← pyPick lk vlist
      let result :=
        if vlist.contains "status__name" then
          setField result "status" ((getField lk "status__name").getD .vNull)
        else result
      return result
  | none => return []

/-! Helper lemmas about documents and the store primitives. -/

theorem getField_setField_self (d : Doc) (k : String) (v : Val) :
    getField (setField d k v) k = some v := by
  induction d with
  | nil => simp [setField, getField]
  | cons kv t ih =>
      by_cases h : kv.1 = k
      · simp [setField, getField, h]
      · simp [setField, getField, h, ih]

theorem getField_setField_ne (d : Doc) (k1 k : String) (v : Val) (h : k1 ≠ k) :
    getField (setField d k1 v) k = getField d k := by
  induction d with
  | nil => simp [setField, getField, h]
  | cons kv t ih =>
      by_cases h2 : kv.1 = k1
      · simp [setField, getField, h2, h]
      · by_cases h3 : kv.1 = k
        · simp [setField, getField, h2, h3, Ne.symm h]
        · simp [setField, getField, h2, h3, ih]

theorem getField_append_left (d1 d2 : Doc) (k : String) (v : Val)
    (h : getField d1 k = some v) : getField (d1 ++ d2) k = some v := by
  induction d1 with
  | nil => simp [getField] at h
  | cons kv t ih =>
      by_cases h2 : kv.1 = k
      · simp [getField, h2] at h ⊢; exact h
      · simp [getField, h2] at h ⊢; exact ih h

theorem getField_setdefault_of_present (d : Doc) (k k2 : String) (v w : Val)
    (h : getField d k = some v) : getField (setdefault d k2 w) k = some v := by
  unfold setdefault
  by_cases h2 : hasKey d k2
  · simp [h2, h]
  · simp [h2, getField_append_left d _ k v h]

theorem Val.beq_self (v : Val) : Val.beq v v = true := (Val.beq_iff v v).mpr rfl

theorem getColl_setColl_self (db : Db) (c : String) (l : List Doc) :
    getColl (setColl db c l) c = l := by
  show getColl ⟨setCollAux db.colls c l, db.nextId⟩ c = l
  unfold getColl
  induction db.colls with
  | nil => simp [setCollAux]
  | cons e t ih =>
      by_cases h : e.1 = c
      · simp [setCollAux, h, List.find?]
      · simpa [setCollAux, h, List.find?] using ih

theorem find_setCollAux_ne (cl : List (String × List Doc)) (c c2 : String) (l : List Doc)
    (h : c ≠ c2) :
    (setCollAux cl c l).find? (fun e => e.1 = c2) = cl.find? (fun e => e.1 = c2) := by
  induction cl with
  | nil =>
      simp only [setCollAux]
      rw [List.find?_cons_of_neg _ (by simp [h])]
  | cons e t ih =>
      obtain ⟨c1, d1⟩ := e
      by_cases h2 : c1 = c
      · simp only [setCollAux, if_pos h2]
        rw [List.find?_cons_of_neg _ (by simp [h]), List.find?_cons_of_neg _ (by simp [h2, h])]
      · by_cases h3 : c1 = c2
        · simp only [setCollAux, if_neg h2]
          rw [List.find?_cons_of_pos _ (by simp [h3]), List.find?_cons_of_pos _ (by simp [h3])]
        · simp only [setCollAux, if_neg h2]
          rw [List.find?_cons_of_neg _ (by simp [h3]), List.find?_cons_of_neg _ (by simp [h3]),
            ih]

theorem getColl_setColl_ne (db : Db) (c c2 : String) (l : List Doc) (h : c ≠ c2) :
    getColl (setColl db c l) c2 = getColl db c2 := by
  unfold getColl setColl
  rw [find_setCollAux_ne db.colls c c2 l h]

theorem getColl_mk_nextId (colls : List (String × List Doc)) (n m : Nat) (c : String) :
    getColl ⟨colls, n⟩ c = getColl ⟨colls, m⟩ c := rfl

theorem getColl_insert_one (db : Db) (c : String) (d : Doc) :
    getColl (insert_one db c d).2 c =
      getColl db c ++ [if hasKey d "_id" then d else d ++ [("_id", .vId db.nextId)]] := by
  unfold insert_one
  by_cases h : hasKey d "_id" <;>
    simpa [h] using getColl_setColl_self ⟨db.colls, db.nextId + 1⟩ c _

theorem getColl_insert_one_ne (db : Db) (c c2 : String) (d : Doc) (h : c ≠ c2) :
    getColl (insert_one db c d).2 c2 = getColl db c2 := by
  unfold insert_one
  simpa [h] using getColl_setColl_ne ⟨db.colls, db.nextId + 1⟩ c c2 _ h

theorem length_getColl_insert_one (db : Db) (c : String) (d : Doc) :
    (getColl (insert_one db c d).2 c).length = (getColl db c).length + 1 := by
  rw [getColl_insert_one]; simp

theorem getLast_getColl_insert_one (db : Db) (c : String) (d : Doc) :
    (getColl (insert_one db c d).2 c).getLast? =
      some (if hasKey d "_id" then d else d ++ [("_id", .vId db.nextId)]) := by
  rw [getColl_insert_one]
  by_cases h : hasKey d "_id" <;> simp [h]

/-! Fixture stores used to instantiate the claims. -/

/-- A store holding one authorization joined to its order, status and
account, exercising the composite authorization search. -/
def authDb : Db :=
  ⟨[("authorization",
     [[("_id", .vId 1), ("name", .vStr "authz-1"), ("type", .vStr "dns"),
       ("value", .vStr "example.com"), ("order", .vId 2), ("status", .vId 3)]]),
    ("orders", [[("_id", .vId 2), ("name", .vStr "order-1"), ("account", .vId 4)]]),
    ("status", [[("_id", .vId 3), ("name", .vStr "pending")]]),
    ("account", [[("_id", .vId 4), ("name", .vStr "alice")]])], 100⟩

/-- A store holding one certificate referencing an order owned by an
account, in the field layout `certificates_search` and
`certificatelist_get` join on. -/
def certDb : Db :=
  ⟨[("account", [[("_id", .vId 10), ("name", .vStr "alice"), ("contact", .vStr "mailto:a")]]),
    ("orders", [[("_id", .vId 20), ("name", .vStr "order-1"), ("account_id", .vId 10)]]),
    ("certificate", [[("_id", .vId 30), ("name", .vStr "cert1"), ("order_id", .vId 20)]])], 100⟩

/-- A store holding one challenge with its full authorization / order /
account chain and a status collection containing `pending` and
`valid`. -/
def chalDb : Db :=
  ⟨[("challenge",
     [[("_id", .vId 1), ("name", .vStr "chal1"), ("token", .vStr "tok"),
       ("keyauthorization", .vStr "ka"), ("validated", .vInt 0), ("status_id", .vId 2),
       ("authorization_id", .vId 3)]]),
    ("status", [[("_id", .vId 2), ("name", .vStr "pending")],
                [("_id", .vId 9), ("name", .vStr "valid")]]),
    ("authorization", [[("_id", .vId 3), ("name", .vStr "authz-1"), ("order_id", .vId 4)]]),
    ("orders", [[("_id", .vId 4), ("name", .vStr "order-1"), ("account_id", .vId 5)]]),
    ("account", [[("_id", .vId 5), ("name", .vStr "alice")]])], 100⟩

/-- A store holding one order document that lacks `notbefore` and
`notafter` (but carries every other field of the default projection),
plus one account. -/
def orderDb : Db :=
  ⟨[("orders",
     [[("_id", .vId 7), ("name", .vStr "order-1"), ("identifiers", .vStr "example.com"),
       ("expires", .vInt 50), ("status__name", .vStr "pending")]]),
    ("account", [[("_id", .vId 5), ("name", .vStr "alice")]])], 100⟩

/-- C1, amended: the create operations perform no existence check on the
referenced order.  `authorization_add` returns a fresh id and appends
the record unconditionally, and `_certificate_insert` on a record whose
`order` name matches no stored order still appends the record, with its
`order` reference silently set to null; no `DanglingReference` failure
exists and a record is always written. -/
theorem create_ignores_missing_order (db : Db) (d : Doc) (s : String)
    (horder : getField d "order" = some (.vStr s))
    (hmiss : _order_search db "name" (.vStr s) = none) :
    (authorization_add db d).1.isSome = true ∧
    (getColl (authorization_add db d).2 "authorization").length
      = (getColl db "authorization").length + 1 ∧
    (_certificate_insert db d).1.isSome = true ∧
    (getColl (_certificate_insert db d).2 "Certificate").length
      = (getColl db "Certificate").length + 1 ∧
    ((getColl (_certificate_insert db d).2 "Certificate").getLast?.bind
      (fun doc => getField doc "order")) = some .vNull := by
  have hcert : _certificate_insert db d =
      (some (insert_one db "Certificate"
        (setdefault (setdefault (setdefault (setField d "order" .vNull)
          "csr" (.vStr "")) "header_info" (.vStr "")) "error" (.vStr ""))).1,
       (insert_one db "Certificate"
        (setdefault (setdefault (setdefault (setField d "order" .vNull)
          "csr" (.vStr "")) "header_info" (.vStr "")) "error" (.vStr ""))).2) := by
    unfold _certificate_insert
    simp only [horder, hmiss]
  have hord : getField
      (setdefault (setdefault (setdefault (setField d "order" .vNull)
        "csr" (.vStr "")) "header_info" (.vStr "")) "error" (.vStr "")) "order"
      = some .vNull := by
    have h1 := getField_setField_self d "order" .vNull
    have h2 := getField_setdefault_of_present _ "order" "csr" _ (.vStr "") h1
    have h3 := getField_setdefault_of_present _ "order" "header_info" _ (.vStr "") h2
    exact getField_setdefault_of_present _ "order" "error" _ (.vStr "") h3
  refine ⟨rfl, by simpa using length_getColl_insert_one db "authorization" d, ?_, ?_, ?_⟩
  · rw [hcert]
    rfl
  · rw [hcert]
    exact length_getColl_insert_one db "Certificate" _
  · rw [hcert, getLast_getColl_insert_one]
    by_cases hid : hasKey
        (setdefault (setdefault (setdefault (setField d "order" .vNull)
          "csr" (.vStr "")) "header_info" (.vStr "")) "error" (.vStr "")) "_id"
    · simp [hid, hord]
    · simp only [hid, if_neg, Bool.false_eq_true, Option.some_bind]
      exact getField_append_left _ _ "order" _ hord

/-- C1, witness instance: the amended theorem applied on the empty store
to a record referencing the missing order `order-missing`. -/
theorem create_ignores_missing_order_witness :
    getField [("name", Val.vStr "cert1"), ("order", Val.vStr "order-missing")] "order"
      = some (.vStr "order-missing") ∧
    _order_search Db.empty "name" (.vStr "order-missing") = none ∧
    ((authorization_add Db.empty
        [("name", .vStr "cert1"), ("order", .vStr "order-missing")]).1.isSome = true ∧
     (getColl (authorization_add Db.empty
        [("name", .vStr "cert1"), ("order", .vStr "order-missing")]).2 "authorization").length
      = (getColl Db.empty "authorization").length + 1 ∧
     (_certificate_insert Db.empty
        [("name", .vStr "cert1"), ("order", .vStr "order-missing")]).1.isSome = true ∧
     (getColl (_certificate_insert Db.empty
        [("name", .vStr "cert1"), ("order", .vStr "order-missing")]).2 "Certificate").length
      = (getColl Db.empty "Certificate").length + 1 ∧
     ((getColl (_certificate_insert Db.empty
        [("name", .vStr "cert1"), ("order", .vStr "order-missing")]).2 "Certificate").getLast?.bind
        (fun doc => getField doc "order")) = some .vNull) :=
  ⟨rfl, rfl,
   create_ignores_missing_order Db.empty
     [("name", .vStr "cert1"), ("order", .vStr "order-missing")] "order-missing" rfl rfl⟩

/-- C1, counterexample: on the empty store, an authorization referencing
the non-existent order `order-missing` is created successfully (a fresh
id is returned) and the subsequent search finds the row, and a
certificate referencing the same missing order is likewise inserted,
`order` set to null — contradicting the claimed `DanglingReference`
failure with nothing written. -/
theorem create_missing_order_counterexample :
    (authorization_add Db.empty
        [("name", .vStr "authz1"), ("order", .vStr "order-missing")]).1 = some (.vId 1) ∧
    _authorization_search
        (authorization_add Db.empty
          [("name", .vStr "authz1"), ("order", .vStr "order-missing")]).2
        "name" (.vStr "authz1") = [[("name", .vStr "")]] ∧
    (_certificate_insert Db.empty
        [("name", .vStr "cert1"), ("order", .vStr "order-missing")]).1 = some (.vId 1) ∧
    getColl (_certificate_insert Db.empty
        [("name", .vStr "cert1"), ("order", .vStr "order-missing")]).2 "Certificate"
      = [[("name", .vStr "cert1"), ("order", .vNull), ("csr", .vStr ""),
          ("header_info", .vStr ""), ("error", .vStr ""), ("_id", .vId 1)]] :=
  ⟨rfl, rfl, rfl, rfl⟩

/-- C3: updating the stored challenge `chal1` with the status name
`bogus` — which is outside the eight-value vocabulary, as witnessed by
the status search finding nothing — leaves the store unchanged but
terminates in an `AttributeError` crash instead of the structured
`UnknownStatus` failure the spec requires: `_status_search` returns the
`(result, exists)` pair and `challenge_update` feeds that tuple to
`dict_from_row`, which calls `.keys()` on it.  The final conjunct shows
the same crash for the valid status name `valid`, so the intended
status-update path is unreachable. -/
theorem challenge_update_status_crashes :
    challenge_update chalDb [("name", .vStr "chal1"), ("status", .vStr "bogus")]
      = (chalDb, some (.attributeError "keys")) ∧
    statusNameList.contains "bogus" = false ∧
    (_status_search chalDb "name" (.vStr "bogus")).1 = none ∧
    challenge_update chalDb [("name", .vStr "chal1"), ("status", .vStr "valid")]
      = (chalDb, some (.attributeError "keys")) := by
  refine ⟨?_, ?_, ?_, ?_⟩ <;> decide

/-- C9: `authorization_lookup` forwards the internal composite search
result unchanged for every projection request `vlist` (the projection
loop is commented out in the source), so returned rows keep the full
flattened shape; on the fixture store the single row returned for the
projection request `["type", "value"]` carries `order__name`,
`status_id` and `order__account__name`. -/
theorem authorization_lookup_returns_full_rows :
    (∀ (db : Db) (column : String) (pat : Val) (vlist : List String),
        authorization_lookup db column pat vlist = _authorization_search db column pat) ∧
    authorization_lookup authDb "name" (.vStr "authz-1") ["type", "value"]
      = [[("type", .vStr "dns"), ("value", .vStr "example.com"), ("name", .vStr ""),
          ("order__id", .vId 2), ("order__name", .vStr "order-1"), ("status_id", .vId 3),
          ("status__name", .vStr "pending"), ("order__account__name", .vStr "alice")]] :=
  ⟨fun _ _ _ _ => rfl, by decide⟩

theorem deleteFirst_append_of_none (f : MFilter) (l1 l2 : List Doc)
    (h : ∀ d ∈ l1, docMatch f d = false) :
    deleteFirst f (l1 ++ l2) = (deleteFirst f l2).map (l1 ++ ·) := by
  induction l1 with
  | nil => simp [Option.map_id]
  | cons d t ih =>
      have hd := h d (by simp)
      rw [List.cons_append]
      conv_lhs => rw [deleteFirst]
      rw [if_neg (by simp [hd]), ih (fun x hx => h x (by simp [hx])), Option.map_map]
      congr 1

/-- C7: starting from any store in which the nonce value is absent,
`nonce_add` makes `nonce_check` return true, and after `nonce_delete`
the same `nonce_check` returns false — the consumed nonce no longer
validates. -/
theorem nonce_single_use (db : Db) (n : String) (h : nonce_check db n = false) :
    nonce_check (nonce_add db n).2 n = true ∧
    nonce_check (nonce_delete (nonce_add db n).2 n) n = false := by
  have hne : ("nonce" : String) ≠ "_id" := by decide
  have hmatch : docMatch [("nonce", Cond.ceq (.vStr n))]
      [("nonce", .vStr n), ("_id", .vId db.nextId)] = true := by
    simp [docMatch, condMatch, getPath, splitDots, splitDotsAux, getSegs, getField, Val.beq_self]
  have hfil : (getColl db "nonce").filter
      (docMatch [("nonce", Cond.ceq (.vStr n))]) = [] := by
    have h0 : ¬ countDocs (getColl db "nonce") [("nonce", Cond.ceq (.vStr n))] > 0 := by
      intro hgt
      rw [show nonce_check db n = decide
        (countDocs (getColl db "nonce") [("nonce", Cond.ceq (.vStr n))] > 0) from rfl] at h
      simp [hgt] at h
    have : countDocs (getColl db "nonce") [("nonce", Cond.ceq (.vStr n))] = 0 :=
      Nat.eq_zero_of_not_pos h0
    exact List.length_eq_zero.mp this
  have hcoll : getColl (nonce_add db n).2 "nonce"
      = getColl db "nonce" ++ [[("nonce", .vStr n), ("_id", .vId db.nextId)]] := by
    show getColl (insert_one db "nonce" [("nonce", .vStr n)]).2 "nonce" = _
    rw [getColl_insert_one]
    simp [hasKey, getField, hne]
  constructor
  · show decide (countDocs (getColl (nonce_add db n).2 "nonce")
      [("nonce", Cond.ceq (.vStr n))] > 0) = true
    rw [hcoll]
    unfold countDocs
    rw [List.filter_append, hfil]
    simp [hmatch]
  · have hdel : deleteFirst [("nonce", Cond.ceq (.vStr n))]
        (getColl (nonce_add db n).2 "nonce") = some (getColl db "nonce") := by
      rw [hcoll, deleteFirst_append_of_none _ _ _
        (fun d hd => by
          by_contra hcon
          have : d ∈ (getColl db "nonce").filter (docMatch [("nonce", Cond.ceq (.vStr n))]) :=
            List.mem_filter.mpr ⟨hd, by simpa using hcon⟩
          rw [hfil] at this
          simp at this)]
      unfold deleteFirst
      rw [if_pos (by simp [hmatch])]
      simp
    show decide (countDocs (getColl (nonce_delete (nonce_add db n).2 n) "nonce")
      [("nonce", Cond.ceq (.vStr n))] > 0) = false
    unfold nonce_delete delete_one
    rw [hdel]
    simp only [getColl_setColl_self]
    unfold countDocs
    rw [hfil]
    simp

/-- C7, witness instance: the nonce theorem applied to the empty store
and the nonce value `abc`. -/
theorem nonce_single_use_witness :
    nonce_check Db.empty "abc" = false ∧
    (nonce_check (nonce_add Db.empty "abc").2 "abc" = true ∧
     nonce_check (nonce_delete (nonce_add Db.empty "abc").2 "abc") "abc" = false) :=
  ⟨rfl, nonce_single_use Db.empty "abc" rfl⟩

theorem updateFirst_eq_none (f : MFilter) (u : UpdateSpec) (docs : List Doc)
    (h : docs.any (docMatch f) = false) : updateFirst f u docs = none := by
  induction docs with
  | nil => rfl
  | cons d t ih =>
      simp only [List.any_cons, Bool.or_eq_false_iff] at h
      unfold updateFirst
      rw [if_neg (by simp [h.1]), ih h.2]
      rfl

theorem updateFirst_noset (f : MFilter) (u : UpdateSpec) (docs : List Doc)
    (hu : u.uset = []) (h : docs.any (docMatch f) = true) :
    updateFirst f u docs = some docs := by
  induction docs with
  | nil => simp at h
  | cons d t ih =>
      by_cases hm : docMatch f d = true
      · unfold updateFirst
        rw [if_pos hm, hu]
        rfl
      · simp only [List.any_cons, hm, Bool.false_or] at h
        unfold updateFirst
        rw [if_neg hm, ih h]
        rfl

theorem setCollAux_self (cl : List (String × List Doc)) (c : String)
    (h : (cl.find? (fun e => e.1 = c)).isSome = true) :
    setCollAux cl c
      (match cl.find? (fun e => e.1 = c) with | some e => e.2 | none => []) = cl := by
  induction cl with
  | nil => simp [List.find?] at h
  | cons e t ih =>
      obtain ⟨c1, d1⟩ := e
      by_cases h2 : c1 = c
      · subst h2
        rw [List.find?_cons_of_pos _ (by simp)]
        simp [setCollAux]
      · rw [List.find?_cons_of_neg _ (by simp [h2])] at h ⊢
        simp only [setCollAux, if_neg h2]
        rw [ih h]

theorem setColl_getColl_self (db : Db) (c : String)
    (h : (db.colls.find? (fun e => e.1 = c)).isSome = true) :
    setColl db c (getColl db c) = db := by
  show Db.mk (setCollAux db.colls c (getColl db c)) db.nextId = db
  conv_rhs => rw [show db = ⟨db.colls, db.nextId⟩ from rfl]
  congr 1
  exact setCollAux_self db.colls c h

theorem collExists_of_any (db : Db) (c : String) (f : MFilter)
    (h : (getColl db c).any (docMatch f) = true) :
    (db.colls.find? (fun e => e.1 = c)).isSome = true := by
  cases hf : db.colls.find? (fun e => e.1 = c) with
  | none => unfold getColl at h; rw [hf] at h; simp at h
  | some e => rfl

theorem update_one_soi_of_match (db : Db) (c : String) (f : MFilter) (u : UpdateSpec)
    (up : Bool) (hu : u.uset = []) (h : (getColl db c).any (docMatch f) = true) :
    update_one db c f u up = db := by
  unfold update_one
  rw [updateFirst_noset f u _ hu h]
  exact setColl_getColl_self db c (collExists_of_any db c f h)

theorem update_one_of_no_match (db : Db) (c : String) (f : MFilter) (u : UpdateSpec)
    (h : (getColl db c).any (docMatch f) = false) :
    update_one db c f u true
      = setColl ⟨db.colls, db.nextId + 1⟩ c (getColl db c ++ [upsertDoc f u db.nextId]) := by
  unfold update_one
  rw [updateFirst_eq_none f u _ h]
  rfl

theorem getColl_update_one_ne (db : Db) (c c2 : String) (f : MFilter) (u : UpdateSpec)
    (up : Bool) (h : c ≠ c2) :
    getColl (update_one db c f u up) c2 = getColl db c2 := by
  unfold update_one
  cases hf : updateFirst f u (getColl db c) with
  | some docs => exact getColl_setColl_ne db c c2 docs h
  | none =>
      cases up with
      | true => exact getColl_setColl_ne ⟨db.colls, db.nextId + 1⟩ c c2 _ h
      | false => rfl

/-- The document a status upsert inserts when the name is absent. -/
theorem upsertDoc_status (n : String) (i : Nat) :
    upsertDoc [("name", Cond.ceq (.vStr n))] { setOnInsert := [("name", .vStr n)] } i
      = [("name", .vStr n), ("_id", .vId i)] := rfl

theorem docMatch_name_self (n : String) (i : Nat) :
    docMatch [("name", Cond.ceq (.vStr n))] [("name", .vStr n), ("_id", .vId i)] = true := by
  simp [docMatch, condMatch, getPath, splitDots, splitDotsAux, getSegs, getField, Val.beq_self]

theorem statusUpsert_of_match (db : Db) (n : String)
    (h : (getColl db "status").any (docMatch [("name", Cond.ceq (.vStr n))]) = true) :
    statusUpsert db n = db :=
  update_one_soi_of_match db "status" _ _ true rfl h

theorem any_statusUpsert_self (db : Db) (n : String) :
    (getColl (statusUpsert db n) "status").any
      (docMatch [("name", Cond.ceq (.vStr n))]) = true := by
  by_cases h : (getColl db "status").any (docMatch [("name", Cond.ceq (.vStr n))]) = true
  · rw [statusUpsert_of_match db n h]; exact h
  · have h2 := eq_false_of_ne_true h
    unfold statusUpsert
    rw [update_one_of_no_match db "status" _ _ h2, getColl_setColl_self]
    rw [upsertDoc_status]
    simp [docMatch_name_self]

theorem any_statusUpsert_mono (db : Db) (n : String) (f : MFilter)
    (h : (getColl db "status").any (docMatch f) = true) :
    (getColl (statusUpsert db n) "status").any (docMatch f) = true := by
  by_cases h2 : (getColl db "status").any (docMatch [("name", Cond.ceq (.vStr n))]) = true
  · rw [statusUpsert_of_match db n h2]; exact h
  · have h3 := eq_false_of_ne_true h2
    unfold statusUpsert
    rw [update_one_of_no_match db "status" _ _ h3, getColl_setColl_self]
    simp only [List.any_append, h]
    rfl

theorem getColl_statusUpsert_ne (db : Db) (n : String) (c2 : String) (h : c2 ≠ "status") :
    getColl (statusUpsert db n) c2 = getColl db c2 :=
  getColl_update_one_ne db "status" c2 _ _ true (Ne.symm h)

theorem any_foldl_statusUpsert_mono (ns : List String) (db : Db) (f : MFilter)
    (h : (getColl db "status").any (docMatch f) = true) :
    (getColl (ns.foldl statusUpsert db) "status").any (docMatch f) = true := by
  induction ns generalizing db with
  | nil => exact h
  | cons m t ih => exact ih (statusUpsert db m) (any_statusUpsert_mono db m f h)

theorem any_foldl_statusUpsert_self (ns : List String) (db : Db) (n : String) (hn : n ∈ ns) :
    (getColl (ns.foldl statusUpsert db) "status").any
      (docMatch [("name", Cond.ceq (.vStr n))]) = true := by
  induction ns generalizing db with
  | nil => simp at hn
  | cons m t ih =>
      rcases List.mem_cons.mp hn with h1 | h2
      · subst h1
        exact any_foldl_statusUpsert_mono t (statusUpsert db n) _
          (any_statusUpsert_self db n)
      · exact ih (statusUpsert db m) h2

theorem foldl_statusUpsert_id (ns : List String) (db : Db)
    (h : ∀ n ∈ ns, (getColl db "status").any (docMatch [("name", Cond.ceq (.vStr n))]) = true) :
    ns.foldl statusUpsert db = db := by
  induction ns with
  | nil => rfl
  | cons m t ih =>
      rw [List.foldl_cons, statusUpsert_of_match db m (h m (by simp))]
      exact ih (fun n hn => h n (by simp [hn]))

theorem getColl_foldl_statusUpsert_ne (ns : List String) (db : Db) (c2 : String)
    (h : c2 ≠ "status") :
    getColl (ns.foldl statusUpsert db) c2 = getColl db c2 := by
  induction ns generalizing db with
  | nil => rfl
  | cons m t ih => rw [List.foldl_cons, ih (statusUpsert db m), getColl_statusUpsert_ne db m c2 h]

/-- The housekeeping upsert ending the seeding body of `_db_create`. -/
theorem any_hkCreate_self (db : Db) :
    (getColl (update_one db "housekeeping" [("name", Cond.ceq (.vStr "dbversion"))]
        { setOnInsert := [("name", .vStr "dbversion"), ("value", .vStr dbversion)] } true)
      "housekeeping").any (docMatch [("name", Cond.ceq (.vStr "dbversion"))]) = true := by
  by_cases h : (getColl db "housekeeping").any
      (docMatch [("name", Cond.ceq (.vStr "dbversion"))]) = true
  · rw [update_one_soi_of_match db "housekeeping" _ _ true rfl h]; exact h
  · have h2 := eq_false_of_ne_true h
    rw [update_one_of_no_match db "housekeeping" _ _ h2, getColl_setColl_self]
    simp only [List.any_append]
    rw [show upsertDoc [("name", Cond.ceq (.vStr "dbversion"))]
      { setOnInsert := [("name", .vStr "dbversion"), ("value", .vStr dbversion)] } db.nextId
      = [("name", .vStr "dbversion"), ("value", .vStr dbversion), ("_id", .vId db.nextId)]
      from rfl]
    simp [docMatch, condMatch, getPath, splitDots, splitDotsAux, getSegs, getField, Val.beq_self]

/-- C6 (code bug): the store-creation step never seeds the registry.
Its first statement reads the never-assigned `self.db_name`, so
`_db_create` raises `AttributeError` on every store before any upsert,
and the status collection of a freshly created store stays empty
instead of holding the eight vocabulary names.  The seeding statements
below the crash, `_db_create_body`, are idempotent and would leave
exactly the eight names, each exactly once and no other value — the
claim describes this intended but unreachable behaviour. -/
theorem db_create_crashes_before_seeding :
    (∀ db : Db, _db_create db = (db, some (.attributeError "db_name"))) ∧
    getColl (_db_create Db.empty).1 "status" = [] ∧
    (∀ db : Db, _db_create_body (_db_create_body db) = _db_create_body db) ∧
    (getColl (_db_create_body Db.empty) "status").map (fun d => getField d "name")
      = statusNameList.map (fun n => some (.vStr n)) := by
  refine ⟨fun _ => rfl, rfl, ?_, by decide⟩
  intro db
  unfold _db_create_body
  set A := statusNameList.foldl statusUpsert db with hA
  set B := update_one A "housekeeping" [("name", Cond.ceq (.vStr "dbversion"))]
    { setOnInsert := [("name", .vStr "dbversion"), ("value", .vStr dbversion)] } true with hB
  have hfold : statusNameList.foldl statusUpsert B = B := by
    apply foldl_statusUpsert_id
    intro n hn
    have hstat : getColl B "status" = getColl A "status" := by
      rw [hB]
      exact getColl_update_one_ne A "housekeeping" "status" _ _ true (by decide)
    rw [hstat]
    exact any_foldl_statusUpsert_self statusNameList db n hn
  rw [hfold]
  exact update_one_soi_of_match B "housekeeping" _ _ true rfl (any_hkCreate_self A)

theorem find?_append_of_none {α} (p : α → Bool) (l1 l2 : List α) (h : l1.find? p = none) :
    (l1 ++ l2).find? p = l2.find? p := by
  induction l1 with
  | nil => rfl
  | cons a t ih =>
      by_cases ha : p a = true
      · rw [List.find?_cons_of_pos _ ha] at h; cases h
      · rw [List.find?_cons_of_neg _ (by simp [ha])] at h
        rw [List.cons_append, List.find?_cons_of_neg _ (by simp [ha]), ih h]

theorem findDoc_updateFirst (f : MFilter) (u : UpdateSpec)
    (hpres : ∀ d, docMatch f (applySet u.uset d) = docMatch f d) :
    ∀ (docs l : List Doc), updateFirst f u docs = some l →
    findDoc l f = (findDoc docs f).map (applySet u.uset) := by
  intro docs
  induction docs with
  | nil => intro l h; cases h
  | cons d t ih =>
      intro l h
      by_cases hm : docMatch f d = true
      · unfold updateFirst at h
        rw [if_pos hm] at h
        cases h
        unfold findDoc
        rw [List.find?_cons_of_pos _ (by simp [hpres d, hm]),
          List.find?_cons_of_pos _ (by simp [hm])]
        rfl
      · unfold updateFirst at h
        rw [if_neg hm] at h
        cases hrec : updateFirst f u t with
        | none => rw [hrec] at h; cases h
        | some l2 =>
            rw [hrec] at h
            cases h
            unfold findDoc
            rw [List.find?_cons_of_neg _ (by simp [hm]),
              List.find?_cons_of_neg _ (by simp [hm])]
            exact ih l2 hrec

theorem getField_projectDoc_value (d : Doc) :
    getField (projectDoc [("value", ProjSpec.incl)] true d) "value" = getPath d "value" := by
  unfold projectDoc projFieldAt
  cases hid : getField d "_id" with
  | some v => cases hp : getPath d "value" <;> simp [getField, hp]
  | none => cases hp : getPath d "value" <;> simp [getField, hp]

theorem updateFirst_isSome_of_any (f : MFilter) (u : UpdateSpec) (docs : List Doc)
    (h : docs.any (docMatch f) = true) : (updateFirst f u docs).isSome = true := by
  induction docs with
  | nil => simp at h
  | cons d t ih =>
      by_cases hm : docMatch f d = true
      · unfold updateFirst
        rw [if_pos hm]
        rfl
      · simp only [List.any_cons, hm, Bool.false_or] at h
        unfold updateFirst
        rw [if_neg hm]
        cases hrec : updateFirst f u t with
        | none => rw [hrec] at ih; exact absurd (ih h) (by simp)
        | some l => rfl

theorem dbversion_get_eq (db : Db) :
    dbversion_get db
      = ((findDoc (getColl db "housekeeping")
          [("name", Cond.ceq (.vStr "dbversion"))]).bind (fun d => getPath d "value"),
        "tools/db_update.py") := by
  unfold dbversion_get findDocProj
  cases hf : findDoc (getColl db "housekeeping") [("name", Cond.ceq (.vStr "dbversion"))] with
  | none => rfl
  | some d =>
      show (getField (projectDoc [("value", ProjSpec.incl)] true d) "value",
        "tools/db_update.py") = ((some d).bind (fun d => getPath d "value"), "tools/db_update.py")
      rw [getField_projectDoc_value]
      rfl

theorem dbversion_get_after_set (db : Db) :
    dbversion_get (update_one db "housekeeping" [("name", Cond.ceq (.vStr "dbversion"))]
      { uset := [("value", .vStr dbversion)] } true)
    = (some (.vStr dbversion), "tools/db_update.py") := by
  have hpres : ∀ d : Doc,
      docMatch [("name", Cond.ceq (.vStr "dbversion"))]
        (applySet [("value", .vStr dbversion)] d)
      = docMatch [("name", Cond.ceq (.vStr "dbversion"))] d := by
    intro d
    show docMatch _ (setField d "value" (.vStr dbversion)) = _
    simp [docMatch, getPath, splitDots, splitDotsAux, getSegs,
      getField_setField_ne d "value" "name" _ (by decide)]
  unfold update_one
  cases hf : updateFirst [("name", Cond.ceq (.vStr "dbversion"))]
      { uset := [("value", .vStr dbversion)] } (getColl db "housekeeping") with
  | some docs =>
      have hex : (getColl db "housekeeping").any
          (docMatch [("name", Cond.ceq (.vStr "dbversion"))]) = true := by
        by_contra hc
        rw [updateFirst_eq_none _ _ _ (eq_false_of_ne_true hc)] at hf
        cases hf
      obtain ⟨d0, hd0mem, hd0⟩ := List.any_eq_true.mp hex
      obtain ⟨d1, hd1⟩ : ∃ d1, findDoc (getColl db "housekeeping")
          [("name", Cond.ceq (.vStr "dbversion"))] = some d1 := by
        cases hfd : findDoc (getColl db "housekeeping")
            [("name", Cond.ceq (.vStr "dbversion"))] with
        | some x => exact ⟨x, rfl⟩
        | none =>
            exact absurd hd0 (by simpa using List.find?_eq_none.mp hfd d0 hd0mem)
      have hfind := findDoc_updateFirst _ _ hpres _ docs hf
      rw [dbversion_get_eq, getColl_setColl_self, hfind, hd1]
      rw [show Option.map (applySet [("value", Val.vStr dbversion)]) (some d1)
        = some (setField d1 "value" (.vStr dbversion)) from rfl]
      rw [show Option.bind (some (setField d1 "value" (Val.vStr dbversion)))
          (fun d => getPath d "value")
        = getField (setField d1 "value" (.vStr dbversion)) "value" from rfl]
      rw [getField_setField_self]
  | none =>
      have hnone : findDoc (getColl db "housekeeping")
          [("name", Cond.ceq (.vStr "dbversion"))] = none := by
        apply List.find?_eq_none.mpr
        intro x hx
        by_contra hc
        have hany : (getColl db "housekeeping").any
            (docMatch [("name", Cond.ceq (.vStr "dbversion"))]) = true :=
          List.any_eq_true.mpr ⟨x, hx, by simpa using hc⟩
        have := updateFirst_isSome_of_any _
          { uset := [("value", .vStr dbversion)] } _ hany
        rw [hf] at this
        cases this
      rw [show (if true = true then
          setColl ⟨db.colls, db.nextId + 1⟩ "housekeeping"
            (getColl db "housekeeping" ++
              [upsertDoc [("name", Cond.ceq (.vStr "dbversion"))]
                { uset := [("value", .vStr dbversion)] } db.nextId])
          else db)
        = setColl ⟨db.colls, db.nextId + 1⟩ "housekeeping"
            (getColl db "housekeeping" ++
              [upsertDoc [("name", Cond.ceq (.vStr "dbversion"))]
                { uset := [("value", .vStr dbversion)] } db.nextId]) from rfl]
      rw [dbversion_get_eq, getColl_setColl_self]
      unfold findDoc
      rw [find?_append_of_none _ _ _ hnone]
      rfl

/-- C8 (code bug): a freshly initialized store never reports the
running code's version, because initialization itself crashes:
`_db_create` raises `AttributeError` on the never-assigned
`self.db_name` before seeding anything, so `dbversion_get` on the
fresh store yields `None` instead of the version — though it would
yield the version paired with the script reference had the unreachable
seeding body run.  The reconciliation half of the claim does hold:
`db_update`'s `$set` upsert of the version is its final statement,
after all per-entity reconciliation steps, so from every starting
store the persisted `dbversion` equals the running code's version. -/
theorem dbversion_create_crash_and_update :
    _db_create Db.empty = (Db.empty, some (.attributeError "db_name")) ∧
    dbversion_get Db.empty = (none, "tools/db_update.py") ∧
    dbversion_get (_db_create_body Db.empty)
      = (some (.vStr dbversion), "tools/db_update.py") ∧
    (∀ db : Db, dbversion_get (db_update db)
      = (some (.vStr dbversion), "tools/db_update.py")) :=
  ⟨rfl, rfl, rfl, fun _ => dbversion_get_after_set _⟩

theorem getField_removeField_ne (d : Doc) (k1 k : String) (h : k1 ≠ k) :
    getField (removeField d k1) k = getField d k := by
  induction d with
  | nil => rfl
  | cons kv t ih =>
      by_cases h2 : kv.1 = k1
      · rw [removeField, if_pos h2, getField, if_neg (h2 ▸ h)]
      · rw [removeField, if_neg h2]
        by_cases h3 : kv.1 = k
        · rw [getField, if_pos h3, getField, if_pos h3]
        · rw [getField, if_neg h3, getField, if_neg h3, ih]

theorem getField_setSegs_head_ne (segs : List String) (v : Val) (d : Doc) (k : String)
    (h : segs.head? ≠ some k) :
    getField (setSegs segs v d) k = getField d k := by
  match segs with
  | [] => rfl
  | [k1] => exact getField_setField_ne d k1 k v (by simpa using h)
  | k1 :: k2 :: rest =>
      have hne : k1 ≠ k := by simpa using h
      cases hg : getField d k1 with
      | some w => cases w <;> simp [setSegs, hg, getField_setField_ne _ k1 k _ hne]
      | none => simp [setSegs, hg, getField_setField_ne _ k1 k _ hne]

theorem getField_removeSegs_head_ne (segs : List String) (d : Doc) (k : String)
    (h : segs.head? ≠ some k) :
    getField (removeSegs segs d) k = getField d k := by
  match segs with
  | [] => rfl
  | [k1] => exact getField_removeField_ne d k1 k (by simpa using h)
  | k1 :: k2 :: rest =>
      have hne : k1 ≠ k := by simpa using h
      cases hg : getField d k1 with
      | some w => cases w <;> simp [removeSegs, hg, getField_setField_ne _ k1 k _ hne]
      | none => simp [removeSegs, hg]

theorem mem_lookupStage (db : Db) (fc lf ff asP : String) (docs : List Doc) (y : Doc)
    (hy : y ∈ lookupStage db fc lf ff asP docs) :
    ∃ x ∈ docs, ∃ v, y = setPath x asP v := by
  obtain ⟨x, hx, hxy⟩ := List.mem_map.mp hy
  exact ⟨x, hx, _, hxy.symm⟩

theorem mem_unwindStage (p : String) (pres : Bool) (docs : List Doc) (y : Doc)
    (hy : y ∈ unwindStage p pres docs) :
    ∃ x ∈ docs, y = x ∨ y = removePath x p ∨ ∃ v, y = setPath x p v := by
  unfold unwindStage at hy
  obtain ⟨x, hx, hxy⟩ := List.mem_flatMap.mp hy
  refine ⟨x, hx, ?_⟩
  rcases hg : getPath x p with _ | v
  · rw [hg] at hxy
    cases pres
    · simp at hxy
    · simp at hxy
      exact Or.inl hxy
  · rw [hg] at hxy
    cases v with
    | vArr l =>
        cases l with
        | nil =>
            cases pres
            · simp at hxy
            · simp at hxy
              exact Or.inr (Or.inl hxy)
        | cons a t =>
            obtain ⟨w, _, hw⟩ := List.mem_map.mp hxy
            exact Or.inr (Or.inr ⟨w, hw.symm⟩)
    | vNull =>
        cases pres
        · simp at hxy
        · simp at hxy
          exact Or.inl hxy
    | vStr s =>
        simp at hxy
        exact Or.inl hxy
    | vInt i =>
        simp at hxy
        exact Or.inl hxy
    | vId i =>
        simp at hxy
        exact Or.inl hxy
    | vDoc fs =>
        simp at hxy
        exact Or.inl hxy

/-- Top-level fields other than the head of the target path survive a
`$lookup` or `$unwind` stage unchanged. -/
theorem getField_of_mem_lookupStage (db : Db) (fc lf ff asP : String) (docs : List Doc)
    (y : Doc) (k : String) (h : (splitDots asP).head? ≠ some k)
    (hy : y ∈ lookupStage db fc lf ff asP docs) :
    ∃ x ∈ docs, getField y k = getField x k := by
  obtain ⟨x, hx, v, rfl⟩ := mem_lookupStage db fc lf ff asP docs y hy
  exact ⟨x, hx, getField_setSegs_head_ne _ v x k h⟩

theorem getField_of_mem_unwindStage (p : String) (pres : Bool) (docs : List Doc)
    (y : Doc) (k : String) (h : (splitDots p).head? ≠ some k)
    (hy : y ∈ unwindStage p pres docs) :
    ∃ x ∈ docs, getField y k = getField x k := by
  obtain ⟨x, hx, hcase⟩ := mem_unwindStage p pres docs y hy
  rcases hcase with h1 | h1 | ⟨v, h1⟩
  · exact ⟨x, hx, by rw [h1]⟩
  · exact ⟨x, hx, by rw [h1]; exact getField_removeSegs_head_ne _ x k h⟩
  · exact ⟨x, hx, by rw [h1]; exact getField_setSegs_head_ne _ v x k h⟩

theorem condMatch_regex_none (pat : Val) : condMatch (.regex pat) none = false := by
  cases pat <;> rfl

/-- C4, amended: the composite column `order__name` is not routed to the
joined order: `certificates_search` matches it literally against the
joined document, whose only new top-level field is `order`, so whenever
no leaf certificate document itself carries a field literally named
`order__name` the search returns no rows — in particular a certificate
whose owning order has a matching name is not found. -/
theorem certificates_search_order_name_literal (db : Db) (pat : Val)
    (h : ∀ doc ∈ getColl db "certificate", hasKey doc "order__name" = false) :
    certificates_search db "order__name" pat ["name", "csr", "cert", "order__name"] = [] := by
  unfold certificates_search
  have hstaged : ∀ y ∈ unwindStage "order.account" false
      (lookupStage db "account" "order.account_id" "_id" "order.account"
        (unwindStage "order" false
          (lookupStage db "orders" "order_id" "_id" "order" (getColl db "certificate")))),
      getField y "order__name" = none := by
    intro y hy
    obtain ⟨x3, hx3, he3⟩ := getField_of_mem_unwindStage _ _ _ y "order__name" (by decide) hy
    obtain ⟨x2, hx2, he2⟩ := getField_of_mem_lookupStage _ _ _ _ _ _ x3 "order__name"
      (by decide) hx3
    obtain ⟨x1, hx1, he1⟩ := getField_of_mem_unwindStage _ _ _ x2 "order__name" (by decide) hx2
    obtain ⟨x0, hx0, he0⟩ := getField_of_mem_lookupStage _ _ _ _ _ _ x1 "order__name"
      (by decide) hx1
    rw [he3, he2, he1, he0]
    have := h x0 hx0
    unfold hasKey at this
    exact Option.not_isSome_iff_eq_none.mp (by simp [this])
  have hfil : matchStage [("order__name", Cond.regex pat)]
      (unwindStage "order.account" false
        (lookupStage db "account" "order.account_id" "_id" "order.account"
          (unwindStage "order" false
            (lookupStage db "orders" "order_id" "_id" "order" (getColl db "certificate")))))
      = [] := by
    unfold matchStage
    rw [List.filter_eq_nil_iff]
    intro y hy
    have hnone : getPath y "order__name" = none := hstaged y hy
    simp [docMatch, hnone, condMatch_regex_none]
  show projectStage (["name", "csr", "cert", "order__name"].map
      (fun f => (f, ProjSpec.path (underToDots f)))) true
    (matchStage [("order__name", Cond.regex pat)]
      (unwindStage "order.account" false
        (lookupStage db "account" "order.account_id" "_id" "order.account"
          (unwindStage "order" false
            (lookupStage db "orders" "order_id" "_id" "order" (getColl db "certificate"))))))
    = []
  rw [hfil]
  rfl

/-- C4, witness instance: the amended theorem applied to the fixture
store, whose single certificate document has no literal `order__name`
field. -/
theorem certificates_search_order_name_literal_witness :
    (∀ doc ∈ getColl certDb "certificate", hasKey doc "order__name" = false) ∧
    certificates_search certDb "order__name" (.vStr "order-1")
      ["name", "csr", "cert", "order__name"] = [] :=
  ⟨by decide, certificates_search_order_name_literal certDb (.vStr "order-1") (by decide)⟩

/-- C4, counterexample: in the fixture store the certificate `cert1` is
owned by the order `order-1` — searching by the leaf column `name` finds
it, with the projected `order__name` equal to `order-1` — yet the
composite search on `order__name` with that very value returns no rows,
because the predicate is matched literally against the leaf document
instead of being routed to the joined order; `_certificate_search` on
the same column builds the same literal filter in both branches of its
`if` and also finds nothing. -/
theorem certificates_search_order_name_counterexample :
    certificates_search certDb "name" (.vStr "cert1") ["name", "csr", "cert", "order__name"]
      = [[("_id", .vId 30), ("name", .vStr "cert1"), ("order__name", .vStr "order-1")]] ∧
    certificates_search certDb "order__name" (.vStr "order-1")
      ["name", "csr", "cert", "order__name"] = [] ∧
    _certificate_search certDb "order__name" (.vStr "order-1") = none :=
  ⟨rfl, rfl, rfl⟩

theorem keys_projFields_subset (d : Doc) (spec : List (String × ProjSpec)) :
    ((spec.filterMap (fun ks => (projFieldAt d ks.1 ks.2).map (fun v => (ks.1, v)))).map
        Prod.fst) ⊆ spec.map Prod.fst := by
  induction spec with
  | nil => simp
  | cons ks t ih =>
      cases hp : projFieldAt d ks.1 ks.2 with
      | none =>
          rw [List.filterMap_cons, hp]
          exact List.Subset.trans ih (by simp [List.subset_cons_of_subset])
      | some v =>
          rw [List.filterMap_cons, hp]
          simp only [Option.map_some, List.map_cons]
          exact List.cons_subset_cons _ ih

theorem docKeys_projectDoc_subset (spec : List (String × ProjSpec)) (d : Doc) :
    docKeys (projectDoc spec true d) ⊆ "_id" :: spec.map Prod.fst := by
  unfold projectDoc docKeys
  rw [List.map_append]
  apply List.append_subset.mpr
  constructor
  · cases hid : getField d "_id" <;> simp
  · exact List.Subset.trans (keys_projFields_subset d spec) (List.subset_cons_self _ _)

set_option maxHeartbeats 1000000 in
/-- C5, amended: for both bulk report operations the key list of every
returned row is contained in the returned field-name list extended by
the internal `_id` key (which MongoDB includes by default and the field
list does not mention); listed fields whose paths are absent from the
joined document are omitted from the row — missing keys, not null
placeholders — so a row's key set need not equal the field list. -/
theorem listreport_row_keys (db : Db) :
    (∀ r ∈ (certificatelist_get db).2, docKeys r ⊆ "_id" :: (certificatelist_get db).1) ∧
    (∀ r ∈ (accountlist_get db).2, docKeys r ⊆ "_id" :: (accountlist_get db).1) := by
  constructor
  · intro r hr
    obtain ⟨x, hx, hxr⟩ := List.mem_map.mp hr
    rw [← hxr]
    refine (docKeys_projectDoc_subset _ x).trans ?_
    intro a ha
    rcases List.mem_cons.mp ha with h1 | h1
    · simp [h1]
    · simp only [List.map_map] at h1
      rcases List.mem_map.mp h1 with ⟨f, hf, hfa⟩
      exact List.mem_cons.mpr (Or.inr (by simpa [← hfa] using hf))
  · intro r hr
    obtain ⟨x, hx, hxr⟩ := List.mem_map.mp hr
    rw [← hxr]
    refine (docKeys_projectDoc_subset _ x).trans ?_
    intro a ha
    rcases List.mem_cons.mp ha with h1 | h1
    · simp [h1]
    · simp only [List.map_map] at h1
      rcases List.mem_map.mp h1 with ⟨f, hf, hfa⟩
      exact List.mem_cons.mpr (Or.inr (by simpa [← hfa] using hf))

set_option maxHeartbeats 1000000 in
/-- C5, witness instance: the amended theorem applied to the fixture
store and the single row its certificate report returns. -/
theorem listreport_row_keys_witness :
    [("_id", Val.vId 30), ("name", Val.vStr "cert1"), ("order__name", Val.vStr "order-1"),
      ("order__account__name", Val.vStr "alice"),
      ("order__account__contact", Val.vStr "mailto:a")]
      ∈ (certificatelist_get certDb).2 ∧
    docKeys [("_id", Val.vId 30), ("name", Val.vStr "cert1"),
      ("order__name", Val.vStr "order-1"), ("order__account__name", Val.vStr "alice"),
      ("order__account__contact", Val.vStr "mailto:a")]
      ⊆ "_id" :: (certificatelist_get certDb).1 :=
  ⟨by decide, (listreport_row_keys certDb).1 _ (by decide)⟩

set_option maxHeartbeats 1000000 in
/-- C5, counterexample: on the fixture store the certificate report
returns one row whose key list is `_id, name, order__name,
order__account__name, order__account__contact` — it carries the
internal `_id` (not in the field list), omits the listed fields absent
from the documents (such as `id` and `csr`) instead of presenting them
as empty or null, and therefore does not match the returned field-name
list. -/
theorem listreport_row_shape_counterexample :
    (certificatelist_get certDb).2.map docKeys
      = [["_id", "name", "order__name", "order__account__name", "order__account__contact"]] ∧
    ¬ (∀ r ∈ (certificatelist_get certDb).2, docKeys r = (certificatelist_get certDb).1) := by
  constructor
  · rfl
  · decide

theorem getField_applySet_notMem (pairs : List (String × Val)) (d : Doc) (k : String)
    (h : ∀ p ∈ pairs, p.1 ≠ k) :
    getField (applySet pairs d) k = getField d k := by
  induction pairs generalizing d with
  | nil => rfl
  | cons p t ih =>
      rw [show applySet (p :: t) d = applySet t (setField d p.1 p.2) from rfl]
      rw [ih (setField d p.1 p.2) (fun q hq => h q (by simp [hq]))]
      exact getField_setField_ne d p.1 k p.2 (h p (by simp))

theorem map_getField_updateFirst (f : MFilter) (u : UpdateSpec) (k : String)
    (hk : ∀ p ∈ u.uset, p.1 ≠ k) :
    ∀ docs l, updateFirst f u docs = some l →
      l.map (fun doc => getField doc k) = docs.map (fun doc => getField doc k) := by
  intro docs
  induction docs with
  | nil => intro l h; cases h
  | cons d t ih =>
      intro l h
      by_cases hm : docMatch f d = true
      · unfold updateFirst at h
        rw [if_pos hm] at h
        cases h
        simp only [List.map_cons]
        rw [getField_applySet_notMem u.uset d k hk]
      · unfold updateFirst at h
        rw [if_neg hm] at h
        cases hrec : updateFirst f u t with
        | none => rw [hrec] at h; cases h
        | some l2 =>
            rw [hrec] at h
            cases h
            simp only [List.map_cons]
            rw [ih l2 hrec]

theorem map_getField_update_one_noupsert (db : Db) (c : String) (f : MFilter)
    (u : UpdateSpec) (k : String) (hk : ∀ p ∈ u.uset, p.1 ≠ k) :
    (getColl (update_one db c f u false) c).map (fun doc => getField doc k)
      = (getColl db c).map (fun doc => getField doc k) := by
  unfold update_one
  cases hf : updateFirst f u (getColl db c) with
  | none => rfl
  | some docs =>
      rw [getColl_setColl_self]
      exact map_getField_updateFirst f u k hk _ docs hf

/-- The only field names `_certificate_update` ever writes: the
`error`-branch pair and the fixed ten-field list of the other branch. -/
def certWriteKeys : List String :=
  ["error", "cert", "cert_raw", "issue_uts", "expire_uts", "renewal_info",
   "poll_identifier", "replaced", "header_info", "serial", "aki"]

/-- An account store as left by a first `account_add` call with
`jwk = K1`. -/
def acctDb : Db :=
  ⟨[("account",
     [[("jwk", .vStr "K1"), ("name", .vStr "acc1"), ("alg", .vStr "RS256"),
       ("contact", .vStr "mailto:x"), ("eab_kid", .vStr ""), ("_id", .vId 1)]])], 2⟩

/-- First call of the certificate upsert scenario: create `c1` with
only `cert` supplied. -/
def c2Run1 : Except PyErr (Option Val × Db) :=
  certificate_add Db.empty [("name", .vStr "c1"), ("cert", .vStr "certA")]

/-- The store after the first call of the scenario. -/
def c2Db1 : Db := match c2Run1 with | .ok (_, db) => db | .error _ => Db.empty

/-- Second call of the scenario: the same name with the disjoint field
set `{csr}`. -/
def c2Run2 : Except PyErr (Option Val × Db) :=
  certificate_add c2Db1 [("name", .vStr "c1"), ("csr", .vStr "NEWCSR")]

/-- The store after the second call of the scenario. -/
def c2Db2 : Db := match c2Run2 with | .ok (_, db) => db | .error _ => Db.empty

/-- The certificate record stored by the first call of the scenario. -/
def c2ExDoc : Doc :=
  [("name", .vStr "c1"), ("cert", .vStr "certA"), ("order", .vNull), ("csr", .vStr ""),
   ("header_info", .vStr ""), ("error", .vStr ""), ("_id", .vId 1)]

/-- The second call's record after `certificate_add` pre-defaulted five
fields from the existing record, as handed to `_certificate_update`. -/
def c2SecondDoc : Doc :=
  [("name", .vStr "c1"), ("csr", .vStr "NEWCSR"), ("poll_identifier", .vNull),
   ("renewal_info", .vNull), ("header_info", .vStr ""), ("aki", .vNull), ("serial", .vNull)]

/-- C2, amended: the upsert merge is not a union of the two field sets.
For Certificate, an update rewrites at most the fixed field list
`error, cert, cert_raw, issue_uts, expire_uts, renewal_info,
poll_identifier, replaced, header_info, serial, aki`; every other
field of every stored certificate keeps its prior value, so a second
`add` supplying a fresh field outside the list (such as `csr`) is
silently ignored.  For Account, the second call must itself supply
`alg` and `contact` — with the disjoint field set `{eab_kid}` it
raises `KeyError` instead of merging. -/
theorem certificate_update_only_fixed_fields :
    (∀ (db : Db) (d ex : Doc) (rid : Option Val) (db2 : Db) (k : String),
        _certificate_update db d ex = .ok (rid, db2) →
        k ∉ certWriteKeys →
        (getColl db2 "Certificate").map (fun doc => getField doc k)
          = (getColl db "Certificate").map (fun doc => getField doc k)) ∧
    account_add acctDb [("jwk", .vStr "K1"), ("eab_kid", .vStr "kid1")]
      = .error (.keyError "alg") := by
  constructor
  · intro db d ex rid db2 k h hk
    unfold _certificate_update at h
    simp only [pyIndex, bind, Except.bind] at h
    cases hn : getField d "name" with
    | none => rw [hn] at h; cases h
    | some nv =>
        rw [hn] at h
        cases hid : getField ex "_id" with
        | none => rw [hid] at h; cases h
        | some idv =>
            rw [hid] at h
            cases hexn : getField ex "name" with
            | none => rw [hexn] at h; cases h
            | some env =>
                rw [hexn] at h
                simp only [pure, Except.pure, Except.ok.injEq, Prod.mk.injEq] at h
                rw [← h.2]
                by_cases herr : hasKey d "error" = true
                · rw [if_pos herr]
                  apply map_getField_update_one_noupsert
                  intro p hp heq
                  apply hk
                  subst heq
                  simp only [List.mem_cons, List.not_mem_nil, or_false] at hp
                  rcases hp with rfl | rfl <;> simp [certWriteKeys]
                · rw [if_neg herr]
                  apply map_getField_update_one_noupsert
                  intro p hp heq
                  apply hk
                  subst heq
                  simp only [List.mem_cons, List.not_mem_nil, or_false] at hp
                  rcases hp with rfl | rfl | rfl | rfl | rfl | rfl | rfl | rfl | rfl | rfl <;>
                    simp [certWriteKeys]
  · rfl

/-- C2, witness instance: the amended theorem applied to the two-call
scenario — the second call's `csr` value is ignored and every stored
record's `csr` is unchanged by the update. -/
theorem certificate_update_only_fixed_fields_witness :
    (_certificate_update c2Db1 c2SecondDoc c2ExDoc = .ok (some (.vId 1), c2Db2)) ∧
    ("csr" ∉ certWriteKeys) ∧
    (getColl c2Db2 "Certificate").map (fun doc => getField doc "csr")
      = (getColl c2Db1 "Certificate").map (fun doc => getField doc "csr") :=
  ⟨rfl, by decide,
   certificate_update_only_fixed_fields.1 c2Db1 c2SecondDoc c2ExDoc
     (some (.vId 1)) c2Db2 "csr" rfl (by decide)⟩

/-- C2, counterexample: calling `certificate_add` twice — first with
`{name, cert}`, then with the same name and the disjoint set `{csr}` —
leaves a single record whose `csr` is still the empty string inserted
by the first call, not the second call's `NEWCSR`: the union-merge the
claim demands does not happen.  The Account half fails harder: the
second `add` with the disjoint set `{eab_kid}` raises `KeyError` on the
absent `alg` instead of merging. -/
theorem upsert_union_counterexample :
    c2Run1 = .ok (some (.vId 1), c2Db1) ∧
    c2Run2 = .ok (some (.vId 1), c2Db2) ∧
    (getColl c2Db2 "Certificate").length = 1 ∧
    (getColl c2Db2 "Certificate").map (fun doc => getField doc "csr") = [some (.vStr "")] ∧
    some (Val.vStr "") ≠ some (Val.vStr "NEWCSR") ∧
    account_add acctDb [("jwk", .vStr "K1"), ("eab_kid", .vStr "kid1")]
      = .error (.keyError "alg") :=
  ⟨rfl, rfl, rfl, rfl, by decide, rfl⟩

theorem getField_append_right (d1 d2 : Doc) (k : String) (h : getField d1 k = none) :
    getField (d1 ++ d2) k = getField d2 k := by
  induction d1 with
  | nil => rfl
  | cons kv t ih =>
      by_cases h2 : kv.1 = k
      · rw [getField, if_pos h2] at h; cases h
      · rw [getField, if_neg h2] at h
        rw [List.cons_append, getField, if_neg h2, ih h]

theorem pyPick_getField (d : Doc) :
    ∀ (fs : List String) (res : Doc), pyPick d fs = .ok res →
      ∀ f ∈ fs, ∃ v, getField res f = some v ∧ getField d f = some v := by
  intro fs
  induction fs with
  | nil =>
      intro res h f hf
      simp at hf
  | cons g t ih =>
      intro res h f hf
      unfold pyPick at h
      simp only [pyIndex, bind, Except.bind, pure, Except.pure] at h
      cases hg : getField d g with
      | none => rw [hg] at h; cases h
      | some vg =>
          rw [hg] at h
          cases hr : pyPick d t with
          | error e => rw [hr] at h; cases h
          | ok r2 =>
              rw [hr] at h
              cases h
              by_cases hgf : g = f
              · subst hgf
                exact ⟨vg, by simp [getField], hg⟩
              · obtain ⟨v, hres, hd⟩ := ih r2 hr f
                  (by rcases List.mem_cons.mp hf with h1 | h1
                      · exact absurd h1.symm hgf
                      · exact h1)
                exact ⟨v, by simpa [getField, hgf] using hres, hd⟩

theorem hasKey_setField_mono (r : Doc) (k k2 : String) (v : Val) (h : hasKey r k = true) :
    hasKey (setField r k2 v) k = true := by
  by_cases h2 : k2 = k
  · subst h2
    simp [hasKey, getField_setField_self]
  · simpa [hasKey, getField_setField_ne r k2 k v h2] using h

theorem getField_filterMap_incl_none (raw : Doc) (k : String) (hk : getPath raw k = none) :
    ∀ spec : List (String × ProjSpec), (∀ ks ∈ spec, ks.2 = ProjSpec.incl) →
    getField (spec.filterMap
      (fun ks => (projFieldAt raw ks.1 ks.2).map (fun v => (ks.1, v)))) k = none := by
  intro spec
  induction spec with
  | nil => intro _; rfl
  | cons ks t ih =>
      intro hincl
      rw [List.filterMap_cons]
      cases hp : (projFieldAt raw ks.1 ks.2).map (fun v => (ks.1, v)) with
      | none => exact ih (fun x hx => hincl x (by simp [hx]))
      | some pair =>
          obtain ⟨v, hv, rfl⟩ : ∃ v, projFieldAt raw ks.1 ks.2 = some v ∧ pair = (ks.1, v) := by
            cases hq : projFieldAt raw ks.1 ks.2 with
            | none => rw [hq] at hp; cases hp
            | some v => rw [hq] at hp; cases hp; exact ⟨v, rfl, rfl⟩
          by_cases hfk : ks.1 = k
          · have hincl2 := hincl ks (by simp)
            rw [hincl2] at hv
            unfold projFieldAt at hv
            rw [hfk, hk] at hv
            cases hv
          · rw [getField, if_neg hfk]
            exact ih (fun x hx => hincl x (by simp [hx]))

theorem getField_projectDoc_incl_none (raw : Doc) (vlist : List String) (k : String)
    (hid : k ≠ "_id") (hk : getPath raw k = none) :
    getField (projectDoc (vlist.map (fun f => (f, ProjSpec.incl))) true raw) k = none := by
  have hfm := getField_filterMap_incl_none raw k hk
    (vlist.map (fun f => (f, ProjSpec.incl)))
    (by
      intro ks hks
      obtain ⟨f, _, hf⟩ := List.mem_map.mp hks
      rw [← hf])
  show getField ((match getField raw "_id" with
      | some v => [("_id", v)]
      | none => ([] : Doc)) ++
      (vlist.map (fun f => (f, ProjSpec.incl))).filterMap
        (fun ks => (projFieldAt raw ks.1 ks.2).map (fun v => (ks.1, v)))) k = none
  cases hid2 : getField raw "_id" with
  | none => simpa using hfm
  | some w =>
      exact (getField_append_right [("_id", w)] _ k
        (by simp [getField, Ne.symm hid])).trans hfm

/-- C10, amended: under the default projection, every successful
non-empty `order_lookup` result carries both `notbefore` and
`notafter`, with 0 for a field the stored order document lacks; and
`order_add` on a record omitting `notbefore`/`notafter` persists 0 for
both in the stored document.  The restriction to the default projection
is necessary: the result is rebuilt over exactly the caller's `vlist`,
so a projection omitting the two fields yields a non-empty record
without them. -/
theorem order_defaults :
    (∀ (db : Db) (column : String) (pat : Val) (r : Doc),
        order_lookup db column pat orderVlistDefault = .ok r → r ≠ [] →
        hasKey r "notbefore" = true ∧ hasKey r "notafter" = true) ∧
    (∀ (db : Db) (column : String) (pat : Val) (raw r : Doc),
        findDoc (getColl db "orders") [(column, .regex pat)] = some raw →
        hasKey raw "notbefore" = false →
        order_lookup db column pat orderVlistDefault = .ok r →
        getField r "notbefore" = some (.vInt 0)) ∧
    (∀ (db : Db) (d : Doc) (rid : Val) (db2 : Db),
        hasKey d "notbefore" = false → hasKey d "notafter" = false →
        order_add db d = .ok (some rid, db2) →
        (getColl db2 "orders").getLast?.bind (fun doc => getField doc "notbefore")
          = some (.vInt 0) ∧
        (getColl db2 "orders").getLast?.bind (fun doc => getField doc "notafter")
          = some (.vInt 0)) := by
  have hcontains : orderVlistDefault.contains "status__name" = true := rfl
  refine ⟨?_, ?_, ?_⟩
  · intro db column pat r h hne
    unfold order_lookup at h
    cases hf : findDocProj (getColl db "orders") [(column, .regex pat)] orderVlistDefault with
    | none =>
        rw [hf] at h
        cases h
        simp at hne
    | some lk =>
        rw [hf] at h
        simp only [bind, Except.bind, pure, Except.pure] at h
        split at h
        · cases h
        · rename_i res hres
          cases h
          have hnb : "notbefore" ∈ orderVlistDefault := by decide
          have hna : "notafter" ∈ orderVlistDefault := by decide
          obtain ⟨v1, hr1, _⟩ := pyPick_getField _ _ _ hres "notbefore" hnb
          obtain ⟨v2, hr2, _⟩ := pyPick_getField _ _ _ hres "notafter" hna
          rw [hcontains]
          simp only [if_true]
          constructor
          · exact hasKey_setField_mono res "notbefore" "status" _ (by simp [hasKey, hr1])
          · exact hasKey_setField_mono res "notafter" "status" _ (by simp [hasKey, hr2])
  · intro db column pat raw r hraw hnb h
    have hfdp : findDocProj (getColl db "orders") [(column, .regex pat)] orderVlistDefault
        = some (projectDoc (orderVlistDefault.map (fun k => (k, ProjSpec.incl))) true raw) := by
      unfold findDocProj
      rw [hraw]
      rfl
    have hlk : getField
        (projectDoc (orderVlistDefault.map (fun k => (k, ProjSpec.incl))) true raw)
        "notbefore" = none := by
      apply getField_projectDoc_incl_none raw orderVlistDefault "notbefore" (by decide)
      show getField raw "notbefore" = none
      simpa [hasKey] using hnb
    unfold order_lookup at h
    rw [hfdp] at h
    simp only [bind, Except.bind, pure, Except.pure] at h
    split at h
    · cases h
    · rename_i res hres
      cases h
      rw [hcontains]
      simp only [if_true]
      set lk := projectDoc (orderVlistDefault.map (fun k => (k, ProjSpec.incl))) true raw
        with hlkdef
      have h1 : getField (setField lk "notbefore" ((getField lk "notbefore").getD (.vInt 0)))
          "notbefore" = some (.vInt 0) := by
        rw [hlk]
        exact getField_setField_self lk "notbefore" _
      have h2 : getField (setField
          (setField lk "notbefore" ((getField lk "notbefore").getD (.vInt 0))) "notafter"
          ((getField (setField lk "notbefore" ((getField lk "notbefore").getD (.vInt 0)))
            "notafter").getD (.vInt 0))) "notbefore" = some (.vInt 0) := by
        rw [getField_setField_ne _ "notafter" "notbefore" _ (by decide)]
        exact h1
      obtain ⟨v, hrv, hdv⟩ := pyPick_getField _ _ _ hres "notbefore" (by decide)
      rw [h2] at hdv
      cases hdv
      rw [getField_setField_ne _ "status" "notbefore" _ (by decide)]
      exact hrv
  · intro db d rid db2 hnb hna h
    unfold order_add at h
    simp only [bind, Except.bind, pure, Except.pure, pyIndex] at h
    have hd1 : setdefault d "notbefore" (.vInt 0) = d ++ [("notbefore", .vInt 0)] := by
      unfold setdefault
      rw [if_neg (by simp [hnb])]
    have hd1na : getField (d ++ [("notbefore", .vInt 0)]) "notafter" = none := by
      rw [getField_append_right _ _ _ (by simpa [hasKey] using hna)]
      rfl
    have hd2 : setdefault (setdefault d "notbefore" (.vInt 0)) "notafter" (.vInt 0)
        = d ++ [("notbefore", .vInt 0)] ++ [("notafter", .vInt 0)] := by
      rw [hd1]
      unfold setdefault
      rw [if_neg (by simp [hasKey, hd1na])]
    rw [hd2] at h
    set d2 := d ++ [("notbefore", .vInt 0)] ++ [("notafter", .vInt 0)] with hd2def
    have hd2nb : getField d2 "notbefore" = some (.vInt 0) := by
      rw [hd2def, getField_append_left _ _ "notbefore" (.vInt 0)]
      rw [getField_append_right _ _ _ (by simpa [hasKey] using hnb)]
      rfl
    have hd2na : getField d2 "notafter" = some (.vInt 0) := by
      rw [hd2def]
      rw [getField_append_right _ _ _ hd1na]
      rfl
    split at h
    · cases h
    · rename_i acctName hacct
      split at h
      · split at h
        · cases h
        · rename_i aid haid
          cases h
          rw [getLast_getColl_insert_one]
          have h3nb : getField (setField d2 "account" aid) "notbefore" = some (.vInt 0) := by
            rw [getField_setField_ne _ "account" "notbefore" _ (by decide)]
            exact hd2nb
          have h3na : getField (setField d2 "account" aid) "notafter" = some (.vInt 0) := by
            rw [getField_setField_ne _ "account" "notafter" _ (by decide)]
            exact hd2na
          by_cases hid : hasKey (setField d2 "account" aid) "_id" = true
          · simp only [hid, if_true, Option.some_bind]
            exact ⟨h3nb, h3na⟩
          · simp only [eq_false_of_ne_true hid, Bool.false_eq_true, if_false,
              Option.some_bind]
            exact ⟨getField_append_left _ _ _ _ h3nb, getField_append_left _ _ _ _ h3na⟩
      · cases h

/-- C10, counterexample: with the caller-supplied projection
`["name"]` (the repository itself passes non-default projections, e.g.
`['name', 'account__name']` from `certificate_account_check`), the
lookup on the fixture store returns a non-empty record that contains
neither `notbefore` nor `notafter`, so the claim's universal statement
over every non-empty result fails. -/
theorem order_lookup_projection_counterexample :
    order_lookup orderDb "name" (.vStr "order-1") ["name"]
      = .ok [("name", .vStr "order-1")] ∧
    hasKey [("name", Val.vStr "order-1")] "notbefore" = false ∧
    hasKey [("name", Val.vStr "order-1")] "notafter" = false :=
  ⟨rfl, rfl, rfl⟩

/-- The stored order document of the fixture store (no `notbefore`,
no `notafter`). -/
def c10Raw : Doc :=
  [("_id", .vId 7), ("name", .vStr "order-1"), ("identifiers", .vStr "example.com"),
   ("expires", .vInt 50), ("status__name", .vStr "pending")]

/-- The record `order_lookup` returns for it under the default
projection. -/
def c10Result : Doc :=
  [("notbefore", .vInt 0), ("notafter", .vInt 0), ("identifiers", .vStr "example.com"),
   ("expires", .vInt 50), ("status__name", .vStr "pending"), ("status", .vStr "pending")]

/-- The `order_add` on the fixture store with `notbefore`/`notafter`
omitted. -/
def orderAddRun : Except PyErr (Option Val × Db) :=
  order_add orderDb [("name", .vStr "order-2"), ("account", .vStr "alice")]

/-- The store after that `order_add`. -/
def orderAddDb : Db := match orderAddRun with | .ok (_, db) => db | .error _ => Db.empty

/-- C10, witness instance: the defaults theorem applied to the fixture
store — the looked-up record carries `notbefore`/`notafter`, with 0 for
the absent `notbefore`, and the added order is stored with both set
to 0. -/
theorem order_defaults_witness :
    (hasKey c10Result "notbefore" = true ∧ hasKey c10Result "notafter" = true) ∧
    getField c10Result "notbefore" = some (.vInt 0) ∧
    ((getColl orderAddDb "orders").getLast?.bind (fun doc => getField doc "notbefore")
        = some (.vInt 0) ∧
     (getColl orderAddDb "orders").getLast?.bind (fun doc => getField doc "notafter")
        = some (.vInt 0)) :=
  ⟨order_defaults.1 orderDb "name" (.vStr "order-1") c10Result rfl (by decide),
   order_defaults.2.1 orderDb "name" (.vStr "order-1") c10Raw c10Result rfl (by decide) rfl,
   order_defaults.2.2 orderDb [("name", .vStr "order-2"), ("account", .vStr "alice")]
     (.vId 100) orderAddDb (by decide) (by decide) rfl⟩
